import Mathlib

/-!
# ChainBridge_Tron: listener and writer of the relayer engine

A shallow embedding of `chains/tron/listener.go`, `chains/tron/events.go`,
`chains/tron/writer.go`, `chains/tron/writer_methods.go` and
`chains/ethereum/writer_methods.go`.

Conventions of the embedding.

* A byte string (`[]byte`, `[32]byte`) is a `List Nat` of byte values.
* `*big.Int` block heights are `Int`; `uint64` and `uint8` values are `Nat`
  with the reduction written where the source converts.
* Every remote call (chain RPC, router, blockstore) takes its answer from an
  explicit environment value, so a run is a pure function of the answers the
  outside world gives; the calls made are recorded as a list of actions.
* A Go run-time fault (index out of range) is the outcome `crash`.
-/

namespace ChainBridge

/-- A byte string. -/
abbrev Bytes := List Nat

/-! ## Values of `chainbridge-utils/msg` -/

/-- The constants of `msg.TransferType`; `other` stands for any further string. -/
inductive TransferType
  | FungibleTransfer
  | NonFungibleTransfer
  | GenericTransfer
  | other
  deriving DecidableEq, Repr

/-- The struct `msg.Message`; `Source`, `Destination` are `uint8`, `DepositNonce` is `uint64`. -/
structure Message where
  Source : Nat
  Destination : Nat
  /-- the field `Type`. -/
  Type_ : TransferType
  DepositNonce : Nat
  ResourceId : Bytes
  Payload : List Bytes
  deriving DecidableEq, Repr

/-- Minimal big-endian byte string of a natural number, as `big.Int.Bytes` returns it
(the empty string for zero): the bytes of `n`, most significant first, before `acc`. -/
def bigBytesAux : Nat → Nat → Bytes → Bytes
  | 0, _, acc => acc
  | fuel + 1, n, acc => if n = 0 then acc else bigBytesAux fuel (n / 256) (n % 256 :: acc)

/-- The method `big.Int.Bytes` on a natural number; `n` steps are more than enough. -/
def bigBytes (n : Nat) : Bytes :=
  bigBytesAux n n []

/-- The constructor `msg.NewFungibleTransfer` of the message library: the payload is
`[amount.Bytes(), recipient]`. -/
def NewFungibleTransfer (source dest nonce amount : Nat) (resourceId recipient : Bytes) : Message :=
  { Source := source, Destination := dest, Type_ := TransferType.FungibleTransfer,
    DepositNonce := nonce, ResourceId := resourceId,
    Payload := [bigBytes amount, recipient] }

/-- The function `msg.ResourceIdFromSlice`: copy into a zeroed 32-byte array. -/
def ResourceIdFromSlice (b : Bytes) : Bytes :=
  b.take 32 ++ List.replicate (32 - b.length) 0

/-! ## `strconv.ParseUint` in base 16 -/

/-- Hexadecimal digits of a byte string (two per byte), the text that
`common.ToHexWithout0x` produces, given as digit values. -/
def ToHexWithout0x (b : Bytes) : List Nat :=
  b.foldr (fun x acc => x / 16 % 16 :: x % 16 :: acc) []

/-- The digit loop of `strconv.ParseUint(s, 16, bitSize)` with `maxVal = 2^bitSize - 1`:
the value and whether an error is returned. On a range error the value is `maxVal`. -/
def parseUintLoop (maxVal : Nat) : List Nat → Nat → Nat × Bool
  | [], n => (n, false)
  | d :: ds, n =>
    if 16 ≤ d then (0, true)
    else if (2 ^ 64 - 1) / 16 + 1 ≤ n then (maxVal, true)
    else
      let n16 := n * 16 % 2 ^ 64
      let n1 := (n16 + d) % 2 ^ 64
      if n1 < n16 ∨ maxVal < n1 then (maxVal, true)
      else parseUintLoop maxVal ds n1

/-- The call `strconv.ParseUint(s, 16, bitSize)` on a digit string. -/
def ParseUint (s : List Nat) (bitSize : Nat) : Nat × Bool :=
  if s = [] then (0, true) else parseUintLoop (2 ^ bitSize - 1) s 0

/-! ## Listener: data and environment -/

/-- The struct `ERC20HandlerDepositRecord`, the fields the listener uses. -/
structure ERC20HandlerDepositRecord where
  ResourceID : Bytes
  DestinationRecipientAddress : Bytes
  Amount : Nat
  deriving DecidableEq, Repr

/-- Answer of the bridge read `_resourceIDToHandlerAddress`. -/
inductive HandlerAnswer
  /-- The call `TriggerConstantContract` returned an error. -/
  | rpcError
  /-- the call succeeded with an empty constant result, so `cResult[0]` is out of range. -/
  | noResult
  /-- the call returned this handler address, as hexadecimal text. -/
  | addr (hex : List Char)
  deriving DecidableEq, Repr

/-- Answer of the handler read `getDepositRecord` and of its decoding. -/
inductive RecordAnswer
  /-- the call failed or gave no constant result: `cResult[0]` is out of range. -/
  | noResult
  /-- The call `parsedABI.Unpack` failed, so `out` is empty and `out[0]` is out of range. -/
  | unpackFailed
  /-- The call `json.Unmarshal` returned an error. -/
  | unmarshalFailed
  /-- the record was read and decoded. -/
  | record (r : ERC20HandlerDepositRecord)
  deriving DecidableEq, Repr

/-- One log of a transaction info, with the answers the outside world gives to the
calls the listener may make while handling it. -/
structure Log where
  Address : Bytes
  Topics : List Bytes
  handler : HandlerAnswer
  deposit : RecordAnswer
  sendFails : Bool
  deriving DecidableEq, Repr

/-- One `TransactionInfo`: its logs. -/
structure TransactionInfo where
  Log : List Log
  deriving DecidableEq, Repr

/-- The listener's fields that the block loop reads. -/
structure Listener where
  /-- The value `cfg.id`. -/
  id : Nat
  /-- The value `cfg.startBlock`. -/
  startBlock : Int
  /-- The value `blockConfirmations`. -/
  blockConfirmations : Int
  /-- The value `Base58ToAddress(bridgeContract).HexInETH()`, as the address bytes it denotes. -/
  bridgeContract : Bytes
  /-- The value `Base58ToAddress(cfg.erc20HandlerContract).HexInETH()`. -/
  erc20HandlerContract : List Char
  /-- The value `DepositEvent.GetTopic()`, the Keccak-256 digest of `Deposit(uint8,bytes32,uint64)`. -/
  depositTopic : Bytes
  /-- whether `metrics` is non-nil. -/
  hasMetrics : Bool
  deriving Repr

/-- What the listener does to the outside world. -/
inductive Action
  /-- The statement `conn.LatestBlock()`. -/
  | latestBlock
  /-- The statement `time.Sleep(BlockRetryInterval)`. -/
  | sleep
  /-- The statement `metrics.LatestKnownBlock.Set`. -/
  | setLatestKnown (v : Int)
  /-- The statement `GetBlockInfoByNum(b)`, the first step of `getDepositEventsForBlock(b)`. -/
  | queryBlock (b : Int)
  /-- the bridge read `_resourceIDToHandlerAddress(rId)`. -/
  | handlerLookup (rId : Bytes)
  /-- the handler read `getDepositRecord(nonce, destId)`. -/
  | depositRecord (nonce destId : Nat)
  /-- The statement `router.Send(m)`. -/
  | send (m : Message)
  /-- The statement `blockstore.StoreBlock(b)`. -/
  | storeBlock (b : Int)
  /-- The statement `metrics.BlocksProcessed.Inc()`. -/
  | incBlocksProcessed
  /-- The statement `metrics.LatestProcessedBlock.Set`. -/
  | setLatestProcessed (v : Int)
  /-- The statement `sysErr <- ErrFatalPolling`. -/
  | sysErr
  deriving DecidableEq, Repr

/-- How a call ends: normally with a nil error, with an error, or by a run-time fault. -/
inductive Outcome
  | ok
  | error
  | crash
  deriving DecidableEq, Repr

/-- The variable `BlockRetryLimit`. -/
def BlockRetryLimit : Int := 5

/-- Modelled from the spec: `common.MatchHex`, which is not among the sources; the spec has the
handler address compared case-insensitively against the configured one. -/
def MatchHex (a b : List Char) : Bool :=
  a.map Char.toLower == b.map Char.toLower

/-! ## `events.go` -/

/-- The method `handleErc20DepositedEvent`: the deposit-record read with its arguments, then the
message or the error. The error of the RPC itself is overwritten, so a failed read faults at
`cResult[0]`. -/
def handleErc20DepositedEvent (l : Listener) (destId nonce : Nat) (ans : RecordAnswer) :
    List Action × Outcome × Message :=
  let call := [Action.depositRecord (nonce % 2 ^ 64) (destId % 2 ^ 8)]
  let empty : Message := { Source := 0, Destination := 0, Type_ := TransferType.other,
                           DepositNonce := 0, ResourceId := [], Payload := [] }
  match ans with
  | RecordAnswer.noResult => (call, Outcome.crash, empty)
  | RecordAnswer.unpackFailed => (call, Outcome.crash, empty)
  | RecordAnswer.unmarshalFailed => (call, Outcome.error, empty)
  | RecordAnswer.record r =>
    (call, Outcome.ok,
      NewFungibleTransfer l.id destId nonce r.Amount r.ResourceID r.DestinationRecipientAddress)

/-! ## `listener.go`: `getDepositEventsForBlock` -/

/-- What the body of the log loop does with one log. -/
inductive LogStep
  /-- the body ended or hit `continue`: the loop goes on with the next log. -/
  | next (acts : List Action)
  /-- the body hit a `return` (or faulted): the function ends with this outcome. -/
  | ret (o : Outcome) (acts : List Action)
  deriving DecidableEq, Repr

/-- The body of the inner loop of `getDepositEventsForBlock` for one log. -/
def handleLog (l : Listener) (log : Log) : LogStep :=
  if l.bridgeContract ≠ log.Address then LogStep.next []
  else
    match log.Topics with
    | [] => LogStep.ret Outcome.crash []
    | t0 :: ts =>
      if t0 ≠ l.depositTopic then LogStep.next []
      else
        match ts with
        | t1 :: t2 :: t3 :: _ =>
          let destId := (ParseUint (ToHexWithout0x t1) 8).1 % 2 ^ 8
          let rId := ResourceIdFromSlice t2
          let nonce := (ParseUint (ToHexWithout0x t3) 8).1 % 2 ^ 64
          let look := [Action.handlerLookup rId]
          match log.handler with
          | HandlerAnswer.rpcError => LogStep.ret Outcome.error look
          | HandlerAnswer.noResult => LogStep.ret Outcome.crash look
          | HandlerAnswer.addr a =>
            if MatchHex a l.erc20HandlerContract then
              match handleErc20DepositedEvent l destId nonce log.deposit with
              | (acts, Outcome.ok, m) => LogStep.next (look ++ acts ++ [Action.send m])
              | (acts, o, _) => LogStep.ret o (look ++ acts)
            else LogStep.ret Outcome.ok look
        | _ => LogStep.ret Outcome.crash []

/-- The inner loop of `getDepositEventsForBlock` over the logs of one transaction info. -/
def logLoop (l : Listener) : List Log → LogStep
  | [] => LogStep.next []
  | log :: rest =>
    match handleLog l log with
    | LogStep.ret o acts => LogStep.ret o acts
    | LogStep.next acts =>
      match logLoop l rest with
      | LogStep.ret o more => LogStep.ret o (acts ++ more)
      | LogStep.next more => LogStep.next (acts ++ more)

/-- The outer loop of `getDepositEventsForBlock` over the transaction infos; after the
last one the function does `return nil`. -/
def txLoop (l : Listener) : List TransactionInfo → Outcome × List Action
  | [] => (Outcome.ok, [])
  | tx :: rest =>
    match logLoop l tx.Log with
    | LogStep.ret o acts => (o, acts)
    | LogStep.next acts =>
      let r := txLoop l rest
      (r.1, acts ++ r.2)

/-- The method `getDepositEventsForBlock`. The answer of `GetBlockInfoByNum` is `none` when the
RPC returns an error; the error is dropped and the nil list has no transaction infos. -/
def getDepositEventsForBlock (l : Listener) (latestBlock : Int)
    (info : Option (List TransactionInfo)) : Outcome × List Action :=
  let txInfoList := info.getD []
  let r := txLoop l txInfoList
  (r.1, Action.queryBlock latestBlock :: r.2)

/-! ## `listener.go`: `pollBlocks` -/

/-- The local variables of `pollBlocks` that live across iterations. -/
structure PollState where
  currentBlock : Int
  retry : Int
  deriving DecidableEq, Repr

/-- The answers of the outside world during one iteration of the loop of `pollBlocks`. -/
structure IterEnv where
  /-- whether `stop` is closed when the `select` is reached. -/
  stopClosed : Bool
  /-- the answer of `conn.LatestBlock()`; `none` when it returns an error. -/
  latest : Option Int
  /-- the answer of `GetBlockInfoByNum`; `none` when it returns an error. -/
  blockInfo : Option (List TransactionInfo)
  /-- whether `blockstore.StoreBlock` returns an error. -/
  storeFails : Bool
  deriving DecidableEq, Repr

/-- The branch an iteration of `pollBlocks` takes. -/
inductive IterKind
  /-- Case `stop` was closed: `return errors.New("polling terminated")`. -/
  | stopped
  /-- Case `retry == 0`: `ErrFatalPolling` is posted and `pollBlocks` returns nil. -/
  | fatal
  /-- Case `LatestBlock` returned an error. -/
  | latestFailed
  /-- the block is not confirmed yet. -/
  | notReady
  /-- Case `getDepositEventsForBlock` returned an error. -/
  | eventsFailed
  /-- Case `getDepositEventsForBlock` faulted. -/
  | eventsCrashed
  /-- the block was processed and the cursor moved on. -/
  | processed
  deriving DecidableEq, Repr

/-- Whether the loop goes on after an iteration. -/
inductive Status
  | running
  /-- Case `pollBlocks` returned; `err` tells whether the returned error is non-nil. -/
  | returned (err : Bool)
  | crashed
  deriving DecidableEq, Repr

/-- The result of one iteration. -/
structure IterResult where
  kind : IterKind
  status : Status
  state : PollState
  acts : List Action
  deriving DecidableEq, Repr

/-- The metric updates made when `metrics` is non-nil. -/
def withMetrics (l : Listener) (acts : List Action) : List Action :=
  if l.hasMetrics then acts else []

/-- One iteration of the `for` loop of `pollBlocks`. -/
def pollIter (l : Listener) (e : IterEnv) (s : PollState) : IterResult :=
  if e.stopClosed then
    { kind := IterKind.stopped, status := Status.returned true, state := s, acts := [] }
  else if s.retry = 0 then
    { kind := IterKind.fatal, status := Status.returned false, state := s,
      acts := [Action.sysErr] }
  else
    match e.latest with
    | none =>
      { kind := IterKind.latestFailed, status := Status.running,
        state := { s with retry := s.retry - 1 },
        acts := [Action.latestBlock, Action.sleep] }
    | some latestBlock =>
      let known := withMetrics l [Action.setLatestKnown latestBlock]
      if latestBlock - s.currentBlock < l.blockConfirmations then
        { kind := IterKind.notReady, status := Status.running, state := s,
          acts := Action.latestBlock :: known ++ [Action.sleep] }
      else
        let r := getDepositEventsForBlock l s.currentBlock e.blockInfo
        match r.1 with
        | Outcome.error =>
          { kind := IterKind.eventsFailed, status := Status.running,
            state := { s with retry := s.retry - 1 },
            acts := Action.latestBlock :: known ++ r.2 }
        | Outcome.crash =>
          { kind := IterKind.eventsCrashed, status := Status.crashed, state := s,
            acts := Action.latestBlock :: known ++ r.2 }
        | Outcome.ok =>
          { kind := IterKind.processed, status := Status.running,
            state := { currentBlock := s.currentBlock + 1, retry := BlockRetryLimit },
            acts := Action.latestBlock :: known ++ r.2 ++ [Action.storeBlock s.currentBlock]
              ++ withMetrics l [Action.incBlocksProcessed, Action.setLatestProcessed latestBlock] }

/-- The iterations of the loop of `pollBlocks` from state `s`, one result per iteration, for
as long as the environment is given and the loop has not ended. -/
def pollTrace (l : Listener) : List IterEnv → PollState → List IterResult
  | [], _ => []
  | e :: es, s =>
    let r := pollIter l e s
    match r.status with
    | Status.running => r :: pollTrace l es r.state
    | _ => [r]

/-- The method `pollBlocks`: the loop entered with `currentBlock = cfg.startBlock` and
`retry = BlockRetryLimit`. -/
def pollBlocks (l : Listener) (es : List IterEnv) : List IterResult :=
  pollTrace l es { currentBlock := l.startBlock, retry := BlockRetryLimit }

/-- All the actions of a run, in order. -/
def runActs (tr : List IterResult) : List Action :=
  tr.foldr (fun r acc => r.acts ++ acc) []

/-! ## Writers: common values -/

/-- The variable `PassedStatus`. -/
def PassedStatus : Nat := 2

/-- The variable `TransferredStatus`. -/
def TransferredStatus : Nat := 3

/-- The variable `CancelledStatus`. -/
def CancelledStatus : Nat := 4

/-- The constant `TxRetryLimit`. -/
def TxRetryLimit : Nat := 10

/-- The struct `bridge.BridgeProposal`, the field the writers read; the zero value has
status 0. -/
structure BridgeProposal where
  Status : Nat := 0
  deriving DecidableEq, Repr

/-- The arguments of the bridge method `voteProposal(uint8,uint64,bytes32,bytes,bytes32)` as a
writer passes them. -/
structure VoteArgs where
  srcId : Nat
  nonce : Nat
  resourceId : Bytes
  data : Bytes
  dataHash : Bytes
  deriving DecidableEq, Repr

/-- What a writer does to the outside world. -/
inductive WAction
  /-- The statement `conn.LockAndUpdateOpts()`. -/
  | lockOpts
  /-- The statement `conn.UnlockOpts()`. -/
  | unlockOpts
  /-- tron: `TriggerContract` with the `voteProposal` call and these arguments. -/
  | triggerContract (a : VoteArgs)
  /-- tron: `ctrlr.ExecuteTransaction()`, which signs and broadcasts the built transaction. -/
  | executeTransaction (a : VoteArgs)
  /-- ethereum: `bridgeContract.VoteProposal` with these arguments. -/
  | voteProposal (a : VoteArgs)
  /-- ethereum: `bridgeContract.GetProposal(srcId, nonce, dataHash)`. -/
  | getProposal (srcId nonce : Nat) (dataHash : Bytes)
  /-- ethereum: `bridgeContract.ExecuteProposal(srcId, nonce, data, resourceId)`. -/
  | executeProposal (srcId nonce : Nat) (data resourceId : Bytes)
  /-- The statement `time.Sleep(TxRetryInterval)`. -/
  | sleep
  /-- The statement `metrics.VotesSubmitted.Inc()`. -/
  | incVotesSubmitted
  /-- The statement `sysErr <- ErrFatalTx`. -/
  | sysErr
  deriving DecidableEq, Repr

/-- The result of a writer call: the value returned (`none` after a run-time fault) and the
actions made. -/
structure WResult (α : Type) where
  ret : Option α
  acts : List WAction
  deriving DecidableEq, Repr

/-- The 8 bytes `keyBytes` of `getDataHash`: byte `i` of `^uint64(0) - DepositNonce`, least
significant first. -/
def keyBytes (DepositNonce : Nat) : Bytes :=
  (List.range 8).map (fun i => ((2 ^ 64 - 1 - DepositNonce % 2 ^ 64) >>> (8 * i)) % 256)

/-- The second loop of `getDataHash`: `dataHash[i] = signByte[i] ^ keyBytes[i%8]` for `i < 32`;
`none` when `signByte[i]` is out of range. -/
def xorLoop (signByte : Bytes) (DepositNonce : Nat) : Option Bytes :=
  (List.range 32).mapM (fun i =>
    match signByte.get? i with
    | none => none
    | some b => some (b ^^^ (keyBytes DepositNonce).getD (i % 8) 0))

/-- Left-pad with zero bytes to 32 bytes (`common.LeftPadBytes(b, 32)`); a longer string
is unchanged. -/
def leftPad32 (b : Bytes) : Bytes :=
  List.replicate (32 - b.length) 0 ++ b

/-- Modelled from the spec: `ConstructErc20ProposalData`, which is not among the sources;
`data = leftPad32(amount) || leftPad32(len(recipient)) || recipient`. -/
def ConstructErc20ProposalData (amount recipient : Bytes) : Bytes :=
  leftPad32 amount ++ leftPad32 (bigBytes recipient.length) ++ recipient

/-- Modelled from the spec: `ConstructErc721ProposalData`, which is not among the sources;
`data = leftPad32(tokenId) || leftPad32(len(recipient)) || recipient ||
leftPad32(len(metadata)) || metadata`. -/
def ConstructErc721ProposalData (tokenId recipient metadata : Bytes) : Bytes :=
  leftPad32 tokenId ++ leftPad32 (bigBytes recipient.length) ++ recipient
    ++ leftPad32 (bigBytes metadata.length) ++ metadata

/-- Modelled from the spec: `ConstructGenericProposalData`, which is not among the sources;
`data = leftPad32(len(metadata)) || metadata`. -/
def ConstructGenericProposalData (metadata : Bytes) : Bytes :=
  leftPad32 (bigBytes metadata.length) ++ metadata

/-! ## `chains/tron/writer.go`, `chains/tron/writer_methods.go` -/

namespace Tron

/-- The tron writer's fields that the proposal pipeline reads. -/
structure Writer where
  /-- The value `Base58ToAddress(cfg.erc20HandlerContract).Bytes()`. -/
  erc20HandlerContract : Bytes
  /-- The value `Base58ToAddress(cfg.erc721HandlerContract).Bytes()`. -/
  erc721HandlerContract : Bytes
  /-- The value `Base58ToAddress(cfg.genericHandlerContract).Bytes()`. -/
  genericHandlerContract : Bytes
  /-- the private scalar `D` of the key that `keystore.GetscryptN(address)` finds among the
  unlocked keys; `none` when the account is not unlocked. -/
  key : Option Nat
  /-- whether `metrics` is non-nil. -/
  hasMetrics : Bool
  deriving DecidableEq, Repr

/-- The answers of the outside world during one iteration of the loop of `voteProposal`. -/
structure VoteEnv where
  /-- whether `stop` is closed when the `select` is reached. -/
  stopClosed : Bool
  /-- whether `TriggerContract` returns an error. -/
  triggerFails : Bool
  /-- whether `ExecuteTransaction` returns an error. -/
  executeFails : Bool
  deriving DecidableEq, Repr

/-- The method `proposalIsFinalized`: the proposal is the zero value and `err` is nil. -/
def proposalIsFinalized (_srcId _nonce : Nat) (_dataHash : Bytes) : Bool :=
  let prop : BridgeProposal := {}
  prop.Status == TransferredStatus || prop.Status == CancelledStatus

/-- The method `proposalIsComplete`: the proposal is the zero value and `err` is nil. -/
def proposalIsComplete (_srcId _nonce : Nat) (_dataHash : Bytes) : Bool :=
  let prop : BridgeProposal := {}
  prop.Status == PassedStatus || prop.Status == TransferredStatus
    || prop.Status == CancelledStatus

/-- The method `hasVoted`: constantly false. -/
def hasVoted (_srcId _nonce : Nat) (_dataHash : Bytes) : Bool :=
  false

/-- The function `getDataHash`: `signByte` is `D.Bytes()` of the unlocked key; `none` is a
run-time fault (no unlocked key, or `signByte` shorter than 32 bytes). -/
def getDataHash (w : Writer) (DepositNonce : Nat) (_data : Bytes) : Option Bytes :=
  match w.key with
  | none => none
  | some D => xorLoop (bigBytes D) DepositNonce

/-- The loop of `voteProposal` with `n` iterations left, `i = TxRetryLimit - n`; the package
variables `tAmount` and `tTokenAmount` are 0, so no asset is looked up. -/
def voteLoop (w : Writer) (m : Message) (data : Bytes) (env : Nat → VoteEnv) :
    Nat → WResult Unit
  | 0 => { ret := some (), acts := [WAction.sysErr] }
  | n + 1 =>
    let e := env (TxRetryLimit - (n + 1))
    if e.stopClosed then { ret := some (), acts := [] }
    else
      match getDataHash w (m.DepositNonce % 2 ^ 64) data with
      | none => { ret := none, acts := [] }
      | some h =>
        let a : VoteArgs :=
          { srcId := m.Source % 2 ^ 8, nonce := m.DepositNonce % 2 ^ 64,
            resourceId := m.ResourceId, data := data, dataHash := h }
        if e.triggerFails then { ret := some (), acts := [WAction.triggerContract a] }
        else if e.executeFails then
          let r := voteLoop w m data env n
          { ret := r.ret,
            acts := [WAction.triggerContract a, WAction.executeTransaction a, WAction.sleep]
              ++ r.acts }
        else
          { ret := some (),
            acts := [WAction.triggerContract a, WAction.executeTransaction a]
              ++ (if w.hasMetrics then [WAction.incVotesSubmitted] else []) }

/-- The method `voteProposal`; the parameter `dataHash` is what the caller computed. -/
def voteProposal (w : Writer) (m : Message) (_dataHash : Bytes) (data : Bytes)
    (env : Nat → VoteEnv) : WResult Unit :=
  voteLoop w m data env TxRetryLimit

/-- The tail shared by the three proposal constructors: vote, then `return true`. -/
def voteThenTrue (r : WResult Unit) : WResult Bool :=
  { ret := r.ret.map (fun _ => true), acts := r.acts }

/-- The method `createErc20Proposal`; `Hash` is `utils.Hash` (Keccak-256). -/
def createErc20Proposal (w : Writer) (Hash : Bytes → Bytes) (m : Message)
    (env : Nat → VoteEnv) : WResult Bool :=
  match m.Payload with
  | p0 :: p1 :: _ =>
    let data := ConstructErc20ProposalData p0 p1
    let dataHash := Hash (w.erc20HandlerContract ++ data)
    voteThenTrue (voteProposal w m dataHash data env)
  | _ => { ret := none, acts := [] }

/-- The method `createErc721Proposal`. -/
def createErc721Proposal (w : Writer) (Hash : Bytes → Bytes) (m : Message)
    (env : Nat → VoteEnv) : WResult Bool :=
  match m.Payload with
  | p0 :: p1 :: p2 :: _ =>
    let data := ConstructErc721ProposalData p0 p1 p2
    let dataHash := Hash (w.erc721HandlerContract ++ data)
    voteThenTrue (voteProposal w m dataHash data env)
  | _ => { ret := none, acts := [] }

/-- The method `createGenericDepositProposal`. -/
def createGenericDepositProposal (w : Writer) (Hash : Bytes → Bytes) (m : Message)
    (env : Nat → VoteEnv) : WResult Bool :=
  match m.Payload with
  | metadata :: _ =>
    let data := ConstructGenericProposalData metadata
    let toHash := w.genericHandlerContract ++ data
    let dataHash := Hash toHash
    voteThenTrue (voteProposal w m dataHash data env)
  | _ => { ret := none, acts := [] }

/-- The method `ResolveMessage`. -/
def ResolveMessage (w : Writer) (Hash : Bytes → Bytes) (m : Message)
    (env : Nat → VoteEnv) : WResult Bool :=
  match m.Type_ with
  | TransferType.FungibleTransfer => createErc20Proposal w Hash m env
  | TransferType.NonFungibleTransfer => createErc721Proposal w Hash m env
  | TransferType.GenericTransfer => createGenericDepositProposal w Hash m env
  | TransferType.other => { ret := some false, acts := [] }

end Tron

/-! ## `chains/ethereum/writer_methods.go` -/

namespace Ethereum

/-- The ethereum writer's fields that the proposal pipeline reads. -/
structure Writer where
  /-- The value `cfg.erc20HandlerContract.Bytes()`. -/
  erc20HandlerContract : Bytes
  /-- The value `cfg.erc721HandlerContract.Bytes()`. -/
  erc721HandlerContract : Bytes
  /-- The value `cfg.genericHandlerContract.Bytes()`. -/
  genericHandlerContract : Bytes
  /-- The value `conn.Keypair().Encode()`, the byte string of the signer's private key. -/
  signByte : Bytes
  /-- whether `metrics` is non-nil. -/
  hasMetrics : Bool
  deriving DecidableEq, Repr

/-- The answer of `bridgeContract.VoteProposal`. -/
inductive SubmitAnswer
  /-- a nil error. -/
  | ok
  /-- an error whose text is `nonce too low`. -/
  | nonceTooLow
  /-- an error whose text is `replacement transaction underpriced`. -/
  | underpriced
  /-- any other error. -/
  | failed
  deriving DecidableEq, Repr

/-- The answers of the outside world during one iteration of the loop of `voteProposal`. -/
structure VoteEnv where
  /-- whether `stop` is closed when the `select` is reached. -/
  stopClosed : Bool
  /-- whether `LockAndUpdateOpts` returns an error. -/
  lockFails : Bool
  /-- the answer of `VoteProposal`. -/
  submit : SubmitAnswer
  /-- the answer of `GetProposal`: the proposal, or `none` for an error. -/
  proposal : Option BridgeProposal
  deriving DecidableEq, Repr

/-- The method `proposalIsFinalized`, on the answer of `GetProposal`. -/
def proposalIsFinalized (ans : Option BridgeProposal) : Bool :=
  match ans with
  | none => false
  | some prop => prop.Status == TransferredStatus || prop.Status == CancelledStatus

/-- The method `proposalIsComplete`, on the answer of `GetProposal`. -/
def proposalIsComplete (ans : Option BridgeProposal) : Bool :=
  match ans with
  | none => false
  | some prop =>
    prop.Status == PassedStatus || prop.Status == TransferredStatus
      || prop.Status == CancelledStatus

/-- The method `hasVoted`, on the answer of `HasVotedOnProposal` (`none` for an error). -/
def hasVoted (ans : Option Bool) : Bool :=
  match ans with
  | none => false
  | some hasVoted => hasVoted

/-- The method `shouldVote`, on the answers of `GetProposal` and `HasVotedOnProposal`. -/
def shouldVote (proposal : Option BridgeProposal) (voted : Option Bool) : Bool :=
  if proposalIsComplete proposal then false
  else if hasVoted voted then false
  else true

/-- The function `getDataHash`; `none` is a run-time fault (`signByte` shorter than 32
bytes). -/
def getDataHash (w : Writer) (DepositNonce : Nat) (_data : Bytes) : Option Bytes :=
  xorLoop w.signByte DepositNonce

/-- The loop of `voteProposal` with `n` iterations left, `i = TxRetryLimit - n`. -/
def voteLoop (w : Writer) (m : Message) (dataHash data : Bytes) (env : Nat → VoteEnv) :
    Nat → WResult Unit
  | 0 => { ret := some (), acts := [WAction.sysErr] }
  | n + 1 =>
    let e := env (TxRetryLimit - (n + 1))
    if e.stopClosed then { ret := some (), acts := [] }
    else if e.lockFails then
      let r := voteLoop w m dataHash data env n
      { ret := r.ret, acts := WAction.lockOpts :: r.acts }
    else
      match getDataHash w (m.DepositNonce % 2 ^ 64) data with
      | none => { ret := none, acts := [WAction.lockOpts] }
      | some h =>
        let a : VoteArgs :=
          { srcId := m.Source % 2 ^ 8, nonce := m.DepositNonce % 2 ^ 64,
            resourceId := m.ResourceId, data := data, dataHash := h }
        let sent := [WAction.lockOpts, WAction.voteProposal a, WAction.unlockOpts]
        match e.submit with
        | SubmitAnswer.ok =>
          { ret := some (),
            acts := sent ++ (if w.hasMetrics then [WAction.incVotesSubmitted] else []) }
        | _ =>
          let check := [WAction.sleep, WAction.getProposal m.Source m.DepositNonce dataHash]
          if proposalIsComplete e.proposal then
            { ret := some (), acts := sent ++ check }
          else
            let r := voteLoop w m dataHash data env n
            { ret := r.ret, acts := sent ++ check ++ r.acts }

/-- The method `voteProposal`. -/
def voteProposal (w : Writer) (m : Message) (dataHash : Bytes) (data : Bytes)
    (env : Nat → VoteEnv) : WResult Unit :=
  voteLoop w m dataHash data env TxRetryLimit

/-- The tail shared by the three proposal constructors: vote, then `return true`. -/
def voteThenTrue (r : WResult Unit) : WResult Bool :=
  { ret := r.ret.map (fun _ => true), acts := r.acts }

/-- The method `createErc20Proposal`; `Hash` is `utils.Hash` (Keccak-256). -/
def createErc20Proposal (w : Writer) (Hash : Bytes → Bytes) (m : Message)
    (env : Nat → VoteEnv) : WResult Bool :=
  match m.Payload with
  | p0 :: p1 :: _ =>
    let data := ConstructErc20ProposalData p0 p1
    let dataHash := Hash (w.erc20HandlerContract ++ data)
    voteThenTrue (voteProposal w m dataHash data env)
  | _ => { ret := none, acts := [] }

/-- The method `createErc721Proposal`. -/
def createErc721Proposal (w : Writer) (Hash : Bytes → Bytes) (m : Message)
    (env : Nat → VoteEnv) : WResult Bool :=
  match m.Payload with
  | p0 :: p1 :: p2 :: _ =>
    let data := ConstructErc721ProposalData p0 p1 p2
    let dataHash := Hash (w.erc721HandlerContract ++ data)
    voteThenTrue (voteProposal w m dataHash data env)
  | _ => { ret := none, acts := [] }

/-- The method `createGenericDepositProposal`. -/
def createGenericDepositProposal (w : Writer) (Hash : Bytes → Bytes) (m : Message)
    (env : Nat → VoteEnv) : WResult Bool :=
  match m.Payload with
  | metadata :: _ =>
    let data := ConstructGenericProposalData metadata
    let toHash := w.genericHandlerContract ++ data
    let dataHash := Hash toHash
    voteThenTrue (voteProposal w m dataHash data env)
  | _ => { ret := none, acts := [] }

/-- The answers of the outside world during one iteration of the loop of `executeProposal`. -/
structure ExecuteEnv where
  /-- whether `stop` is closed when the `select` is reached. -/
  stopClosed : Bool
  /-- whether `LockAndUpdateOpts` returns an error. -/
  lockFails : Bool
  /-- the answer of `ExecuteProposal`. -/
  submit : SubmitAnswer
  /-- the answer of `GetProposal`: the proposal, or `none` for an error. -/
  proposal : Option BridgeProposal
  deriving DecidableEq, Repr

/-- The loop of `executeProposal` with `n` iterations left, `i = TxRetryLimit - n`. -/
def executeLoop (m : Message) (data dataHash : Bytes) (env : Nat → ExecuteEnv) :
    Nat → WResult Unit
  | 0 => { ret := some (), acts := [WAction.sysErr] }
  | n + 1 =>
    let e := env (TxRetryLimit - (n + 1))
    if e.stopClosed then { ret := some (), acts := [] }
    else if e.lockFails then { ret := some (), acts := [WAction.lockOpts] }
    else
      let sent := [WAction.lockOpts,
        WAction.executeProposal (m.Source % 2 ^ 8) (m.DepositNonce % 2 ^ 64) data m.ResourceId,
        WAction.unlockOpts]
      match e.submit with
      | SubmitAnswer.ok => { ret := some (), acts := sent }
      | _ =>
        let check := [WAction.sleep, WAction.getProposal m.Source m.DepositNonce dataHash]
        if proposalIsFinalized e.proposal then
          { ret := some (), acts := sent ++ check }
        else
          let r := executeLoop m data dataHash env n
          { ret := r.ret, acts := sent ++ check ++ r.acts }

/-- The method `executeProposal`. -/
def executeProposal (m : Message) (data dataHash : Bytes) (env : Nat → ExecuteEnv) :
    WResult Unit :=
  executeLoop m data dataHash env TxRetryLimit

end Ethereum

/-! ## Observations on runs and sample data -/

/-- The messages handed to `router.Send`, in order. -/
def sentMessages (acts : List Action) : List Message :=
  acts.filterMap (fun a => match a with
    | Action.send m => some m
    | _ => none)

/-- The block heights passed to `blockstore.StoreBlock`, in order. -/
def storedBlocks (acts : List Action) : List Int :=
  acts.filterMap (fun a => match a with
    | Action.storeBlock b => some b
    | _ => none)

/-- The block heights for which `getDepositEventsForBlock` was entered, in order. -/
def queriedBlocks (acts : List Action) : List Int :=
  acts.filterMap (fun a => match a with
    | Action.queryBlock b => some b
    | _ => none)

/-- The number of `time.Sleep(BlockRetryInterval)` calls. -/
def sleepCount (acts : List Action) : Nat :=
  acts.count Action.sleep

/-- The 32-byte big-endian word holding `n`, as an indexed event topic carries it. -/
def word32 (n : Nat) : Bytes :=
  leftPad32 (bigBytes n)

/-- A listener of chain 1 started at block 100 with no confirmation depth; `depositTopic` is a
32-byte value standing for the digest of the deposit signature. -/
def sampleListener : Listener :=
  { id := 1, startBlock := 100, blockConfirmations := 0,
    bridgeContract := List.replicate 20 0xb1,
    erc20HandlerContract := "0xe20e20".toList,
    depositTopic := List.replicate 32 0xdb,
    hasMetrics := false }

/-- A deposit record of 5 units for a two-byte recipient. -/
def sampleRecord : ERC20HandlerDepositRecord :=
  { ResourceID := word32 9, DestinationRecipientAddress := [0xaa, 0xbb], Amount := 5 }

/-- A `Deposit` log of the bridge for destination 2 and deposit nonce `n`, whose resource id maps
to the handler address `handler`. -/
def depositLog (n : Nat) (handler : List Char) : Log :=
  { Address := List.replicate 20 0xb1,
    Topics := [List.replicate 32 0xdb, word32 2, word32 9, word32 n],
    handler := HandlerAnswer.addr handler,
    deposit := RecordAnswer.record sampleRecord,
    sendFails := false }

/-- A `Deposit` log of the bridge whose handler lookup fails. -/
def lookupFailsLog : Log :=
  { Address := List.replicate 20 0xb1,
    Topics := [List.replicate 32 0xdb, word32 2, word32 9, word32 7],
    handler := HandlerAnswer.rpcError,
    deposit := RecordAnswer.record sampleRecord,
    sendFails := false }

/-- The message of the sample deposit with nonce `n`. -/
def sampleMessage (n : Nat) : Message :=
  NewFungibleTransfer 1 2 n 5 (word32 9) [0xaa, 0xbb]

/-- The iteration environment in which `stop` is open, the chain head is `latest`, the
block-info RPC answers `info` and the blockstore accepts the write. -/
def iterEnv (latest : Int) (info : Option (List TransactionInfo)) : IterEnv :=
  { stopClosed := false, latest := some latest, blockInfo := info, storeFails := false }

/-- The iteration environment in which `LatestBlock` returns an error. -/
def latestFailsEnv : IterEnv :=
  { stopClosed := false, latest := none, blockInfo := none, storeFails := false }

/-- The actions that `getDepositEventsForBlock` makes after its block-info query. -/
def isEventAct : Action → Bool
  | Action.handlerLookup _ => true
  | Action.depositRecord _ _ => true
  | Action.send _ => true
  | _ => false

/-- The actions of a log step. -/
def LogStep.acts : LogStep → List Action
  | LogStep.next a => a
  | LogStep.ret _ a => a

/-- The sample block with one deposit of nonce 7 handled by the configured erc20 handler. -/
def depositBlock : List TransactionInfo :=
  [{ Log := [depositLog 7 "0xE20E20".toList] }]

/-- The sample block whose first deposit log maps to a handler that is not configured and whose
second deposit log is the one of `depositBlock`. -/
def mixedBlock : List TransactionInfo :=
  [{ Log := [depositLog 6 "0x721721".toList, depositLog 7 "0xE20E20".toList] }]

/-- As `mixedBlock`, with the two logs in two transactions of the block. -/
def mixedBlockTwoTx : List TransactionInfo :=
  [{ Log := [depositLog 6 "0x721721".toList] }, { Log := [depositLog 7 "0xE20E20".toList] }]

/-- A tron writer whose unlocked key has the private scalar `D`. -/
def tronWriter (D : Nat) : Tron.Writer :=
  { erc20HandlerContract := List.replicate 21 0x41,
    erc721HandlerContract := List.replicate 21 0x42,
    genericHandlerContract := List.replicate 21 0x43,
    key := some D, hasMetrics := true }

/-- An ethereum writer whose key pair encodes to `k`. -/
def ethWriter (k : Bytes) : Ethereum.Writer :=
  { erc20HandlerContract := List.replicate 20 0x41,
    erc721HandlerContract := List.replicate 20 0x42,
    genericHandlerContract := List.replicate 20 0x43,
    signByte := k, hasMetrics := true }

/-- The tron environment in which `stop` stays open and every call succeeds. -/
def tronOk : Nat → Tron.VoteEnv :=
  fun _ => { stopClosed := false, triggerFails := false, executeFails := false }

/-- The ethereum environment in which `stop` stays open, every call succeeds and the bridge
reports the proposal with `status`. -/
def ethOk (status : Nat) : Nat → Ethereum.VoteEnv :=
  fun _ => { stopClosed := false, lockFails := false, submit := Ethereum.SubmitAnswer.ok,
             proposal := some { Status := status } }

/-- The payload `data` of the sample message. -/
def sampleData : Bytes :=
  ConstructErc20ProposalData [5] [0xaa, 0xbb]

/-- A private scalar of 32 bytes, all of them `0x11`. -/
def keyOne : Nat := 0x1111111111111111111111111111111111111111111111111111111111111111

/-- A private scalar of 32 bytes, all of them `0x22`. -/
def keyTwo : Nat := 0x2222222222222222222222222222222222222222222222222222222222222222

/-- The vote arguments of the sample message with the data hash `h`. -/
def sampleVote (h : Bytes) : VoteArgs :=
  { srcId := 1, nonce := 7, resourceId := word32 9, data := sampleData, dataHash := h }

/-- The bytes of `keyOne` XOR-ed with `keyBytes 7`, the mask of deposit nonce 7. -/
def maskedKeyOne : Bytes :=
  (List.replicate 4 [0xe9, 0xee, 0xee, 0xee, 0xee, 0xee, 0xee, 0xee]).flatten

/-- The bytes of `keyTwo` XOR-ed with `keyBytes 7`. -/
def maskedKeyTwo : Bytes :=
  (List.replicate 4 [0xda, 0xdd, 0xdd, 0xdd, 0xdd, 0xdd, 0xdd, 0xdd]).flatten

/-- The logs of a block, in the order of the two loops of `getDepositEventsForBlock`. -/
def blockLogs (txs : List TransactionInfo) : List Log :=
  txs.foldr (fun tx acc => tx.Log ++ acc) []

/-- Whether a log passes the two tests at the head of the log loop: the emitting address is
the bridge and `topics[0]` is the deposit topic. -/
def isBridgeDeposit (l : Listener) (log : Log) : Bool :=
  log.Address == l.bridgeContract && log.Topics.head? == some l.depositTopic

/-- The actions of the loop body on each of `logs`, one after the other. -/
def logsActs (l : Listener) (logs : List Log) : List Action :=
  logs.foldr (fun log acc => (handleLog l log).acts ++ acc) []

/-- The messages that the loop body sends for each of `logs`, one log after the other. -/
def logsMessages (l : Listener) (logs : List Log) : List Message :=
  logs.foldr (fun log acc => sentMessages (handleLog l log).acts ++ acc) []

/-- The vote transactions handed to the chain, in order: `VoteProposal` calls of the ethereum
writer and `ExecuteTransaction` calls of the tron writer. -/
def submissions (acts : List WAction) : List VoteArgs :=
  acts.filterMap (fun a => match a with
    | WAction.voteProposal v => some v
    | WAction.executeTransaction v => some v
    | _ => none)

/-- The vote transactions that the tron writer built with `TriggerContract`, in order. -/
def builds (acts : List WAction) : List VoteArgs :=
  acts.filterMap (fun a => match a with
    | WAction.triggerContract v => some v
    | _ => none)

/-- An iteration of the ethereum `voteProposal` loop that completes without a successful
submission and leaves the loop running: `stop` is open and either refreshing the options
fails, or the vote is submitted, fails, and the proposal is not complete afterwards. -/
def ethIterationFails (w : Ethereum.Writer) (m : Message) (data : Bytes)
    (e : Ethereum.VoteEnv) : Bool :=
  !e.stopClosed &&
    (e.lockFails ||
      ((Ethereum.getDataHash w (m.DepositNonce % 2 ^ 64) data).isSome
        && e.submit != Ethereum.SubmitAnswer.ok
        && !Ethereum.proposalIsComplete e.proposal))

/-- The ethereum environment in which the first `k` submissions get `ans` and the proposal
stays Active, and every later submission succeeds. -/
def ethFailsThenOk (k : Nat) (ans : Ethereum.SubmitAnswer) : Nat → Ethereum.VoteEnv :=
  fun i => { stopClosed := false, lockFails := false,
             submit := if i < k then ans else Ethereum.SubmitAnswer.ok,
             proposal := some { Status := 1 } }

/-- The ethereum environment in which every submission fails and the bridge reports the
proposal with `status`. -/
def ethFails (status : Nat) : Nat → Ethereum.VoteEnv :=
  fun _ => { stopClosed := false, lockFails := false, submit := Ethereum.SubmitAnswer.failed,
             proposal := some { Status := status } }

/-- The ethereum environment in which `stop` is closed. -/
def ethStopped : Nat → Ethereum.VoteEnv :=
  fun _ => { stopClosed := true, lockFails := false, submit := Ethereum.SubmitAnswer.ok,
             proposal := none }

/-- The tron environment in which `stop` is closed. -/
def tronStopped : Nat → Tron.VoteEnv :=
  fun _ => { stopClosed := true, triggerFails := false, executeFails := false }

/-- The tron environment in which `TriggerContract` returns an error. -/
def tronTriggerFails : Nat → Tron.VoteEnv :=
  fun _ => { stopClosed := false, triggerFails := true, executeFails := false }

/-- The tron environment in which `ExecuteTransaction` returns an error. -/
def tronExecuteFails : Nat → Tron.VoteEnv :=
  fun _ => { stopClosed := false, triggerFails := false, executeFails := true }

/-! ## `chains/tron/chain.go` -/

/-- The fields of the tron `Config` that `setupBlockstore` reads and writes. -/
structure Config where
  startBlock : Int
  freshStart : Bool
  deriving DecidableEq, Repr

/-- The function `setupBlockstore`: the configuration it leaves behind, or `none` when it
returns an error. `newFails` tells whether `blockstore.NewBlockstore` returns an error, `load`
is the answer of `TryLoadLatestBlock` (`none` for an error). -/
def setupBlockstore (cfg : Config) (newFails : Bool) (load : Option Int) : Option Config :=
  if newFails then none
  else if !cfg.freshStart then
    match load with
    | none => none
    | some latestBlock =>
      if latestBlock > cfg.startBlock then some { cfg with startBlock := latestBlock }
      else some cfg
  else some cfg

/-- The state of a Go channel as far as `close` is concerned: the nil channel of a zero-value
struct, a channel that was made and is not closed, a closed channel. -/
inductive Chan
  | nil
  | unclosed
  | closed
  deriving DecidableEq, Repr

/-- The builtin `close(ch)`: the closed channel, or `none` for the run-time fault on a nil
channel and on a channel that is already closed. -/
def closeChan : Chan → Option Chan
  | Chan.nil => none
  | Chan.unclosed => some Chan.closed
  | Chan.closed => none

/-- The struct `Connection`: whether the gRPC client `conn` is set, and its `stop` channel. -/
structure Connection where
  hasClient : Bool
  stop : Chan
  deriving DecidableEq, Repr

/-- The struct `Chain`: its connection (`none` for nil), its `stop` channel, and whether
`Start` has run (which touches neither). -/
structure Chain where
  conn : Option Connection
  stop : Chan
  started : Bool
  deriving DecidableEq, Repr

/-- The method `Connection.Close`: stop the client when there is one, then `close(c.stop)`;
`none` is a run-time fault. -/
def Connection.Close (c : Connection) : Option Connection :=
  match closeChan c.stop with
  | none => none
  | some ch => some { c with stop := ch }

/-- The method `Chain.Stop`: `close(c.stop)`, then close the connection when there is one;
`none` is a run-time fault. -/
def Chain.Stop (c : Chain) : Option Chain :=
  match closeChan c.stop with
  | none => none
  | some ch =>
    match c.conn with
    | none => some { c with stop := ch }
    | some k =>
      match k.Close with
      | none => none
      | some k2 => some { c with stop := ch, conn := some k2 }

/-- The chain that `InitializeChain` returns: `stop` and the connection's own `stop` are two
fresh channels. -/
def initialChain : Chain :=
  { conn := some { hasClient := true, stop := Chan.unclosed }, stop := Chan.unclosed,
    started := false }

/-- The method `Connection.EnsureHasBytecode`. `Base58ToAddress` is the decoder of
`pkg/address`, which is not among the sources; `chainCode` is the contract code that the node
behind the receiver reports for an address, which the body never asks for. -/
def EnsureHasBytecode (Base58ToAddress : List Char → Option Bytes) (_chainCode : Bytes → Bytes)
    (addr : List Char) : Outcome :=
  match Base58ToAddress addr with
  | none => Outcome.error
  | some _ => Outcome.ok

/-- The contract checks of `InitializeChain`: the bridge, then each handler whose configured
address is not the empty string; the first error aborts. -/
def ensureContracts (Base58ToAddress : List Char → Option Bytes) (chainCode : Bytes → Bytes)
    (bridgeContract erc20HandlerContract erc721HandlerContract genericHandlerContract :
      List Char) : Outcome :=
  if EnsureHasBytecode Base58ToAddress chainCode bridgeContract ≠ Outcome.ok then Outcome.error
  else if erc20HandlerContract ≠ []
      ∧ EnsureHasBytecode Base58ToAddress chainCode erc20HandlerContract ≠ Outcome.ok then
    Outcome.error
  else if erc721HandlerContract ≠ []
      ∧ EnsureHasBytecode Base58ToAddress chainCode erc721HandlerContract ≠ Outcome.ok then
    Outcome.error
  else if genericHandlerContract ≠ []
      ∧ EnsureHasBytecode Base58ToAddress chainCode genericHandlerContract ≠ Outcome.ok then
    Outcome.error
  else Outcome.ok

/-! ## `pkg/keystore/url.go` -/

/-- The struct `URL`; a Go string is a byte string. -/
structure URL where
  Scheme : Bytes
  Path : Bytes
  deriving DecidableEq, Repr

/-- The separator `"://"` as bytes. -/
def schemeSep : Bytes := [58, 47, 47]

/-- The call `strings.Split(s, "://")`: `s` cut at the leftmost occurrences of the separator
that do not overlap; `acc` holds the bytes of the current part, last first. -/
def splitSep : Bytes → Bytes → List Bytes
  | [], acc => [acc.reverse]
  | [c], acc => [(c :: acc).reverse]
  | [c, d], acc => [(d :: c :: acc).reverse]
  | c :: d :: e :: rest, acc =>
    if c = 58 ∧ d = 47 ∧ e = 47 then acc.reverse :: splitSep rest []
    else splitSep (d :: e :: rest) (c :: acc)

/-- The function `parseURL`; `none` is the error `protocol scheme missing`. -/
def parseURL (url : Bytes) : Option URL :=
  match splitSep url [] with
  | [p0, p1] => if p0 = [] then none else some { Scheme := p0, Path := p1 }
  | _ => none

/-- The method `URL.String`. -/
def URL.String (u : URL) : Bytes :=
  if u.Scheme ≠ [] then u.Scheme ++ schemeSep ++ u.Path
  else u.Path

/-- Whether a byte string contains `"://"`. -/
def containsSep : Bytes → Bool
  | [] => false
  | [_] => false
  | [_, _] => false
  | c :: d :: e :: rest =>
    if c = 58 ∧ d = 47 ∧ e = 47 then true else containsSep (d :: e :: rest)

/-! ## Further observations and sample data -/

/-- The `ExecuteProposal` calls of the ethereum writer, as source id and nonce, in order. -/
def executions (acts : List WAction) : List (Nat × Nat) :=
  acts.filterMap (fun a => match a with
    | WAction.executeProposal s n _ _ => some (s, n)
    | _ => none)

/-- The ethereum environment of `executeProposal` in which refreshing the options fails. -/
def execLockFails : Nat → Ethereum.ExecuteEnv :=
  fun _ => { stopClosed := false, lockFails := true, submit := Ethereum.SubmitAnswer.ok,
             proposal := some { Status := 1 } }

/-- The ethereum environment of `executeProposal` in which every submission fails and the
bridge reports the proposal with `status`. -/
def execFails (status : Nat) : Nat → Ethereum.ExecuteEnv :=
  fun _ => { stopClosed := false, lockFails := false, submit := Ethereum.SubmitAnswer.failed,
             proposal := some { Status := status } }

/-- A stand-in for `Base58ToAddress`: it decodes the one text `TBridge` and rejects every
other. -/
def sampleBase58 (addr : List Char) : Option Bytes :=
  if addr = "TBridge".toList then some (List.replicate 21 0x41) else none

/-- A chain on which no account holds contract code. -/
def noCode : Bytes → Bytes :=
  fun _ => []

/-- A chain on which every account holds some contract code. -/
def someCode : Bytes → Bytes :=
  fun _ => [0x60, 0x80]

/-- The bytes of an ASCII text. -/
def ascii (s : String) : Bytes :=
  s.toList.map Char.toNat

/-- The ethereum environment of `voteProposal` in which refreshing the options fails. -/
def ethLockFails : Nat → Ethereum.VoteEnv :=
  fun _ => { stopClosed := false, lockFails := true, submit := Ethereum.SubmitAnswer.ok,
             proposal := some { Status := 1 } }

/-- A listener iteration at chain head 200 whose block holds the sample deposit and whose
deposit-record read gets the answer `ans`. -/
def recordEnv (ans : RecordAnswer) : IterEnv :=
  iterEnv 200 (some [{ Log := [{ depositLog 7 "0xE20E20".toList with deposit := ans }] }])

/-- What the answers of the outside world make of an iteration of `pollBlocks` at cursor `B`
that gets past the `stop` and the retry check: it fails when `LatestBlock` returns an error or
`getDepositEventsForBlock(B)` returns an error, it waits when the block is not confirmed, it
processes the block when `getDepositEventsForBlock(B)` returns nil. -/
inductive EnvOutcome
  | failed
  | waits
  | processed
  | crashed
  deriving DecidableEq, Repr

/-- The outcome of an iteration at cursor `B`, read off the answers alone. -/
def envOutcome (l : Listener) (B : Int) (e : IterEnv) : EnvOutcome :=
  match e.latest with
  | none => EnvOutcome.failed
  | some latest =>
    if latest - B < l.blockConfirmations then EnvOutcome.waits
    else
      match (getDepositEventsForBlock l B e.blockInfo).1 with
      | Outcome.ok => EnvOutcome.processed
      | Outcome.error => EnvOutcome.failed
      | Outcome.crash => EnvOutcome.crashed

/-- As the spec counts them: the cursor and the number of failed iterations since the start or
since the last processed block, after the iterations answered by `es`, from cursor `B` and
count `n`; `none` when the run is over before that (the limit was reached at one of these
iterations, or one of them faulted). -/
def specFailures (l : Listener) : List IterEnv → Int → Nat → Option (Int × Nat)
  | [], B, n => some (B, n)
  | e :: es, B, n =>
    if (n : Int) = BlockRetryLimit then none
    else
      match envOutcome l B e with
      | EnvOutcome.failed => specFailures l es B (n + 1)
      | EnvOutcome.waits => specFailures l es B n
      | EnvOutcome.processed => specFailures l es (B + 1) 0
      | EnvOutcome.crashed => none

/-- The number of payload entries that the proposal constructor of a kind reads. -/
def payloadEntries : TransferType → Nat
  | TransferType.FungibleTransfer => 2
  | TransferType.NonFungibleTransfer => 3
  | TransferType.GenericTransfer => 1
  | TransferType.other => 0

/-- A stand-in for `utils.Hash` in concrete runs of the tron writer, which never uses the
hash. -/
def sampleHash : Bytes → Bytes :=
  fun b => b.take 32

/-! ## Lemmas and claims -/

theorem handleErc20DepositedEvent_acts (l : Listener) (destId nonce : Nat) (ans : RecordAnswer) :
    (handleErc20DepositedEvent l destId nonce ans).1
      = [Action.depositRecord (nonce % 2 ^ 64) (destId % 2 ^ 8)] := by
  cases ans <;> rfl

theorem handleLog_eventActs (l : Listener) (log : Log) :
    ∀ a ∈ (handleLog l log).acts, isEventAct a = true := by
  obtain ⟨addr, topics, handler, deposit, sf⟩ := log
  rcases topics with _ | ⟨t0, _ | ⟨t1, _ | ⟨t2, _ | ⟨t3, tl⟩⟩⟩⟩ <;>
    cases handler <;> cases deposit <;>
    simp only [handleLog, handleErc20DepositedEvent] <;>
    split_ifs <;>
    simp [LogStep.acts, isEventAct]

theorem logLoop_eventActs (l : Listener) (logs : List Log) :
    ∀ a ∈ (logLoop l logs).acts, isEventAct a = true := by
  induction logs with
  | nil => simp [logLoop, LogStep.acts]
  | cons log rest ih =>
    have h1 := handleLog_eventActs l log
    unfold logLoop
    split
    · rename_i o acts heq
      rw [heq] at h1
      simpa [LogStep.acts] using h1
    · rename_i acts heq
      rw [heq] at h1
      split
      · rename_i o more heq2
        rw [heq2] at ih
        intro a ha
        simp only [LogStep.acts, List.mem_append] at ha h1 ih
        rcases ha with ha | ha
        · exact h1 a ha
        · exact ih a ha
      · rename_i more heq2
        rw [heq2] at ih
        intro a ha
        simp only [LogStep.acts, List.mem_append] at ha h1 ih
        rcases ha with ha | ha
        · exact h1 a ha
        · exact ih a ha

theorem txLoop_eventActs (l : Listener) (txs : List TransactionInfo) :
    ∀ a ∈ (txLoop l txs).2, isEventAct a = true := by
  induction txs with
  | nil => simp [txLoop]
  | cons tx rest ih =>
    have h1 := logLoop_eventActs l tx.Log
    unfold txLoop
    split
    · rename_i o acts heq
      rw [heq] at h1
      simpa [LogStep.acts] using h1
    · rename_i acts heq
      rw [heq] at h1
      intro a ha
      simp only [LogStep.acts, List.mem_append] at ha h1
      rcases ha with ha | ha
      · exact h1 a ha
      · exact ih a ha

theorem storedBlocks_eventActs (acts : List Action) (h : ∀ a ∈ acts, isEventAct a = true) :
    storedBlocks acts = [] := by
  induction acts with
  | nil => rfl
  | cons a rest ih =>
    have ha := h a (List.mem_cons_self a rest)
    have hr := ih (fun b hb => h b (List.mem_cons_of_mem a hb))
    cases a <;> simp_all [storedBlocks, isEventAct]

theorem sysErr_not_mem_eventActs (acts : List Action) (h : ∀ a ∈ acts, isEventAct a = true) :
    Action.sysErr ∉ acts := by
  intro hm
  have := h _ hm
  simp [isEventAct] at this

theorem storedBlocks_append (a b : List Action) :
    storedBlocks (a ++ b) = storedBlocks a ++ storedBlocks b := by
  simp [storedBlocks, List.filterMap_append]

theorem storedBlocks_withMetrics (l : Listener) (acts : List Action)
    (h : storedBlocks acts = []) : storedBlocks (withMetrics l acts) = [] := by
  unfold withMetrics
  split
  · exact h
  · rfl

theorem storedBlocks_getDepositEventsForBlock (l : Listener) (b : Int)
    (info : Option (List TransactionInfo)) :
    storedBlocks (getDepositEventsForBlock l b info).2 = [] := by
  have h := storedBlocks_eventActs _ (txLoop_eventActs l (info.getD []))
  simpa [getDepositEventsForBlock, storedBlocks] using h

theorem sysErr_not_mem_getDepositEventsForBlock (l : Listener) (b : Int)
    (info : Option (List TransactionInfo)) :
    Action.sysErr ∉ (getDepositEventsForBlock l b info).2 := by
  have h := sysErr_not_mem_eventActs _ (txLoop_eventActs l (info.getD []))
  simpa [getDepositEventsForBlock] using h

theorem sysErr_mem_pollIter (l : Listener) (e : IterEnv) (s : PollState) :
    Action.sysErr ∈ (pollIter l e s).acts ↔ (pollIter l e s).kind = IterKind.fatal := by
  have hev := sysErr_not_mem_getDepositEventsForBlock l s.currentBlock e.blockInfo
  unfold pollIter
  split_ifs with h1 h2
  · simp
  · simp
  · cases hl : e.latest with
    | none => simp
    | some latest =>
      simp only
      split_ifs with h3
      · simp [withMetrics]
      · cases ho : (getDepositEventsForBlock l s.currentBlock e.blockInfo).1 <;>
          simp only [ho] <;> simp [withMetrics, hev]

theorem pollIter_fatal_iff (l : Listener) (e : IterEnv) (s : PollState)
    (hstop : e.stopClosed = false) :
    (pollIter l e s).kind = IterKind.fatal ↔ s.retry = 0 := by
  unfold pollIter
  rw [hstop]
  by_cases h2 : s.retry = 0
  · simp [h2]
  · simp only [Bool.false_eq_true, if_false, if_neg h2]
    cases hl : e.latest with
    | none => simp [h2]
    | some latest =>
      simp only
      split_ifs with h3
      · simp [h2]
      · cases ho : (getDepositEventsForBlock l s.currentBlock e.blockInfo).1 <;> simp [h2]

theorem pollIter_fatal_result (l : Listener) (e : IterEnv) (s : PollState)
    (hk : (pollIter l e s).kind = IterKind.fatal) :
    (pollIter l e s).status = Status.returned false
      ∧ (pollIter l e s).acts = [Action.sysErr] := by
  revert hk
  unfold pollIter
  split_ifs with h1 h2
  · simp
  · simp
  · cases hl : e.latest with
    | none => simp
    | some latest =>
      simp only
      split_ifs with h3
      · simp
      · cases ho : (getDepositEventsForBlock l s.currentBlock e.blockInfo).1 <;> simp

theorem pollTrace_cons_running (l : Listener) (e : IterEnv) (es : List IterEnv) (s : PollState)
    (h : (pollIter l e s).status = Status.running) :
    pollTrace l (e :: es) s = pollIter l e s :: pollTrace l es (pollIter l e s).state := by
  simp [pollTrace, h]

theorem pollTrace_cons_ended (l : Listener) (e : IterEnv) (es : List IterEnv) (s : PollState)
    (h : (pollIter l e s).status ≠ Status.running) :
    pollTrace l (e :: es) s = [pollIter l e s] := by
  unfold pollTrace
  cases hs : (pollIter l e s).status with
  | running => exact absurd hs h
  | returned err => simp [hs]
  | crashed => simp [hs]

theorem pollTrace_ended_last (l : Listener) (es : List IterEnv) :
    ∀ (s : PollState) (k : Nat) (r : IterResult), (pollTrace l es s).get? k = some r →
      r.status ≠ Status.running → k + 1 = (pollTrace l es s).length := by
  induction es with
  | nil => intro s k r h; simp [pollTrace] at h
  | cons e es ih =>
    intro s k r hget hne
    by_cases hrun : (pollIter l e s).status = Status.running
    · rw [pollTrace_cons_running l e es s hrun] at hget ⊢
      cases k with
      | zero =>
        simp only [List.get?_cons_zero, Option.some.injEq] at hget
        subst hget
        exact absurd hrun hne
      | succ k =>
        have := ih (pollIter l e s).state k r (by simpa using hget) hne
        simp [this]
    · rw [pollTrace_cons_ended l e es s hrun] at hget ⊢
      cases k with
      | zero => rfl
      | succ k => simp at hget

theorem pollTrace_sysErr_count (l : Listener) (es : List IterEnv) :
    ∀ (s : PollState), (runActs (pollTrace l es s)).count Action.sysErr ≤ 1 := by
  induction es with
  | nil => intro s; simp [pollTrace, runActs]
  | cons e es ih =>
    intro s
    by_cases hrun : (pollIter l e s).status = Status.running
    · rw [pollTrace_cons_running l e es s hrun]
      have hnot : Action.sysErr ∉ (pollIter l e s).acts := by
        rw [sysErr_mem_pollIter]
        intro hk
        have := (pollIter_fatal_result l e s hk).1
        rw [hrun] at this
        cases this
      have h0 : (pollIter l e s).acts.count Action.sysErr = 0 :=
        List.count_eq_zero_of_not_mem hnot
      have := ih (pollIter l e s).state
      simp only [runActs, List.foldr_cons, List.count_append] at this ⊢
      omega
    · rw [pollTrace_cons_ended l e es s hrun]
      simp only [runActs, List.foldr_cons, List.foldr_nil, List.append_nil]
      by_cases hk : (pollIter l e s).kind = IterKind.fatal
      · rw [(pollIter_fatal_result l e s hk).2]
        simp
      · have hnot : Action.sysErr ∉ (pollIter l e s).acts := by
          rw [sysErr_mem_pollIter]
          exact hk
        rw [List.count_eq_zero_of_not_mem hnot]
        omega

theorem pollTrace_mem (l : Listener) (es : List IterEnv) :
    ∀ (s : PollState) (r : IterResult), r ∈ pollTrace l es s →
      ∃ e s2, r = pollIter l e s2 := by
  induction es with
  | nil => intro s r h; simp [pollTrace] at h
  | cons e es ih =>
    intro s r hr
    by_cases hrun : (pollIter l e s).status = Status.running
    · rw [pollTrace_cons_running l e es s hrun] at hr
      rcases List.mem_cons.mp hr with h | h
      · exact ⟨e, s, h⟩
      · exact ih _ r h
    · rw [pollTrace_cons_ended l e es s hrun] at hr
      exact ⟨e, s, by simpa using hr⟩

/-- C1, evaluated on the code, where the claim does not hold: block 100 holds a bridge deposit
that is sent when the block is read; yet when the block-info RPC fails for block 100, or when
the deposit comes after a deposit with an unrecognized handler, `StoreBlock` is called with 100
and then 101 and no message was handed to `router.Send`. -/
theorem pollBlocks_stores_past_unsent_deposit :
    sentMessages (getDepositEventsForBlock sampleListener 100 (some depositBlock)).2
        = [sampleMessage 7]
      ∧ storedBlocks (runActs (pollBlocks sampleListener
          [iterEnv 200 none, iterEnv 200 (some [])])) = [100, 101]
      ∧ sentMessages (runActs (pollBlocks sampleListener
          [iterEnv 200 none, iterEnv 200 (some [])])) = []
      ∧ storedBlocks (runActs (pollBlocks sampleListener
          [iterEnv 200 (some mixedBlock), iterEnv 200 (some [])])) = [100, 101]
      ∧ sentMessages (runActs (pollBlocks sampleListener
          [iterEnv 200 (some mixedBlock), iterEnv 200 (some [])])) = [] := by
  decide

/-- C2, evaluated on the code, where the claim does not hold: for a bridge deposit whose
`topics[3]` encodes nonce 256 the listener reads the deposit record of nonce 255 and sends a
message with `DepositNonce = 255`, because the topic is parsed with bit size 8; with bit size
64 the same text parses to 256. -/
theorem getDepositEventsForBlock_nonce_256 :
    (getDepositEventsForBlock sampleListener 100
        (some [{ Log := [depositLog 256 "0xE20E20".toList] }])).2
        = [Action.queryBlock 100, Action.handlerLookup (word32 9),
            Action.depositRecord 255 2, Action.send (sampleMessage 255)]
      ∧ (sampleMessage 255).DepositNonce = 255
      ∧ ParseUint (ToHexWithout0x (word32 256)) 8 = (255, true)
      ∧ ParseUint (ToHexWithout0x (word32 256)) 64 = (256, false) := by
  decide

/-- C6: an iteration of `pollBlocks` that gets the chain head `latest` waits (it enters neither
`getDepositEventsForBlock` nor `StoreBlock`, sleeps once, keeps the cursor and the retry counter
and goes on) if and only if `latest - B < blockConfirmations`; it waits at
`latest = B + c - 1` and enters `getDepositEventsForBlock(B)` at `latest = B + c`. -/
theorem pollIter_waits_iff (l : Listener) (e : IterEnv) (s : PollState) (latest : Int)
    (hstop : e.stopClosed = false) (hretry : s.retry ≠ 0) (hlatest : e.latest = some latest) :
    ((queriedBlocks (pollIter l e s).acts = [] ∧ storedBlocks (pollIter l e s).acts = []
          ∧ sleepCount (pollIter l e s).acts = 1 ∧ (pollIter l e s).state = s
          ∧ (pollIter l e s).status = Status.running)
        ↔ latest - s.currentBlock < l.blockConfirmations)
      ∧ (latest = s.currentBlock + l.blockConfirmations - 1 →
          (pollIter l e s).kind = IterKind.notReady)
      ∧ (latest = s.currentBlock + l.blockConfirmations →
          Action.queryBlock s.currentBlock ∈ (pollIter l e s).acts) := by
  have hq : ∀ o : Outcome × List Action,
      o = getDepositEventsForBlock l s.currentBlock e.blockInfo →
      Action.queryBlock s.currentBlock ∈ o.2 := by
    intro o ho
    subst ho
    simp [getDepositEventsForBlock]
  unfold pollIter
  rw [hstop, hlatest]
  simp only [Bool.false_eq_true, if_false, if_neg hretry]
  by_cases h3 : latest - s.currentBlock < l.blockConfirmations
  · simp only [if_pos h3]
    refine ⟨?_, fun _ => trivial, ?_⟩
    · simp only [h3, iff_true]
      simp only [withMetrics]
      split_ifs <;> simp [queriedBlocks, storedBlocks, sleepCount]
    · intro h
      omega
  · simp only [if_neg h3]
    have hmem := hq _ rfl
    refine ⟨?_, ?_, ?_⟩
    · simp only [h3, iff_false]
      intro hall
      have hnil := hall.1
      cases ho : (getDepositEventsForBlock l s.currentBlock e.blockInfo).1 <;>
        simp only [ho] at hnil <;>
        simp only [queriedBlocks, List.filterMap_cons, List.filterMap_append] at hnil <;>
        simp only [getDepositEventsForBlock, List.filterMap_cons] at hnil <;>
        simp at hnil
    · intro h
      omega
    · intro _
      cases ho : (getDepositEventsForBlock l s.currentBlock e.blockInfo).1 <;>
        simp only [ho] <;> simp [hmem]

/-- The concrete iteration of C6: cursor 100, depth 3, chain head 102. -/
theorem pollIter_waits_iff_witness :
    ((queriedBlocks (pollIter { sampleListener with blockConfirmations := 3 }
            (iterEnv 102 (some depositBlock)) { currentBlock := 100, retry := 5 }).acts = []
          ∧ storedBlocks (pollIter { sampleListener with blockConfirmations := 3 }
            (iterEnv 102 (some depositBlock)) { currentBlock := 100, retry := 5 }).acts = []
          ∧ sleepCount (pollIter { sampleListener with blockConfirmations := 3 }
            (iterEnv 102 (some depositBlock)) { currentBlock := 100, retry := 5 }).acts = 1
          ∧ (pollIter { sampleListener with blockConfirmations := 3 }
            (iterEnv 102 (some depositBlock)) { currentBlock := 100, retry := 5 }).state
              = { currentBlock := 100, retry := 5 }
          ∧ (pollIter { sampleListener with blockConfirmations := 3 }
            (iterEnv 102 (some depositBlock)) { currentBlock := 100, retry := 5 }).status
              = Status.running)
        ↔ (102 : Int) - 100 < 3)
      ∧ ((102 : Int) = 100 + 3 - 1 →
          (pollIter { sampleListener with blockConfirmations := 3 }
            (iterEnv 102 (some depositBlock)) { currentBlock := 100, retry := 5 }).kind
              = IterKind.notReady)
      ∧ ((102 : Int) = 100 + 3 →
          Action.queryBlock 100 ∈ (pollIter { sampleListener with blockConfirmations := 3 }
            (iterEnv 102 (some depositBlock)) { currentBlock := 100, retry := 5 }).acts) :=
  pollIter_waits_iff { sampleListener with blockConfirmations := 3 }
    (iterEnv 102 (some depositBlock)) { currentBlock := 100, retry := 5 } 102
    rfl (by decide) rfl

/-- C7: in an iteration of `pollBlocks` that enters `getDepositEventsForBlock(B)` and gets no
error from it, `StoreBlock` is called once, with `B`, the cursor becomes `B + 1`, the retry
counter becomes `BlockRetryLimit` and the loop goes on; the answer of `StoreBlock` changes
nothing of this. -/
theorem pollIter_processed (l : Listener) (e : IterEnv) (s : PollState) (latest : Int)
    (hstop : e.stopClosed = false) (hretry : s.retry ≠ 0) (hlatest : e.latest = some latest)
    (hready : ¬ latest - s.currentBlock < l.blockConfirmations)
    (hok : (getDepositEventsForBlock l s.currentBlock e.blockInfo).1 = Outcome.ok) :
    storedBlocks (pollIter l e s).acts = [s.currentBlock]
      ∧ (pollIter l e s).state
          = { currentBlock := s.currentBlock + 1, retry := BlockRetryLimit }
      ∧ (pollIter l e s).status = Status.running
      ∧ (pollIter l e s).kind = IterKind.processed
      ∧ pollIter l { e with storeFails := true } s = pollIter l e s
      ∧ pollIter l { e with storeFails := false } s = pollIter l e s := by
  have hst := storedBlocks_getDepositEventsForBlock l s.currentBlock e.blockInfo
  have hacts : storedBlocks (pollIter l e s).acts = [s.currentBlock] := by
    unfold pollIter
    rw [hstop, hlatest]
    simp only [Bool.false_eq_true, if_false, if_neg hretry, if_neg hready, hok]
    have hknown : storedBlocks (Action.latestBlock :: withMetrics l [Action.setLatestKnown latest])
        = [] := by
      unfold withMetrics
      split <;> rfl
    simp only [storedBlocks_append, hst, hknown]
    rw [storedBlocks_withMetrics l
      [Action.incBlocksProcessed, Action.setLatestProcessed latest] rfl]
    rfl
  refine ⟨hacts, ?_, ?_, ?_, ?_, ?_⟩
  · unfold pollIter
    rw [hstop, hlatest]
    simp only [Bool.false_eq_true, if_false, if_neg hretry, if_neg hready, hok]
  · unfold pollIter
    rw [hstop, hlatest]
    simp only [Bool.false_eq_true, if_false, if_neg hretry, if_neg hready, hok]
  · unfold pollIter
    rw [hstop, hlatest]
    simp only [Bool.false_eq_true, if_false, if_neg hretry, if_neg hready, hok]
  · rfl
  · rfl

/-- The concrete iteration of C7: block 100 with one deposit, chain head 200, and a blockstore
that rejects the write. -/
theorem pollIter_processed_witness :
    storedBlocks (pollIter sampleListener
        { stopClosed := false, latest := some 200, blockInfo := some depositBlock,
          storeFails := true } { currentBlock := 100, retry := 2 }).acts = [100]
      ∧ (pollIter sampleListener
        { stopClosed := false, latest := some 200, blockInfo := some depositBlock,
          storeFails := true } { currentBlock := 100, retry := 2 }).state
          = { currentBlock := 100 + 1, retry := BlockRetryLimit }
      ∧ (pollIter sampleListener
        { stopClosed := false, latest := some 200, blockInfo := some depositBlock,
          storeFails := true } { currentBlock := 100, retry := 2 }).status = Status.running
      ∧ (pollIter sampleListener
        { stopClosed := false, latest := some 200, blockInfo := some depositBlock,
          storeFails := true } { currentBlock := 100, retry := 2 }).kind = IterKind.processed
      ∧ pollIter sampleListener
          { stopClosed := false, latest := some 200, blockInfo := some depositBlock,
            storeFails := true } { currentBlock := 100, retry := 2 }
        = pollIter sampleListener
          { stopClosed := false, latest := some 200, blockInfo := some depositBlock,
            storeFails := true } { currentBlock := 100, retry := 2 }
      ∧ pollIter sampleListener
          { stopClosed := false, latest := some 200, blockInfo := some depositBlock,
            storeFails := false } { currentBlock := 100, retry := 2 }
        = pollIter sampleListener
          { stopClosed := false, latest := some 200, blockInfo := some depositBlock,
            storeFails := true } { currentBlock := 100, retry := 2 } :=
  pollIter_processed sampleListener
    { stopClosed := false, latest := some 200, blockInfo := some depositBlock,
      storeFails := true } { currentBlock := 100, retry := 2 } 200
    rfl (by decide) rfl (by decide) (by decide)

/-- C8, evaluated on the code, where the claim does not hold: when the handler lookup of a
deposit fails, `getDepositEventsForBlock` returns an error and the iteration decrements the retry
counter, keeps the cursor and stores nothing, but it does not sleep; the iteration in which
`LatestBlock` fails sleeps once. -/
theorem pollIter_events_error_no_sleep :
    (pollIter sampleListener (iterEnv 200 (some [{ Log := [lookupFailsLog] }]))
        { currentBlock := 100, retry := 5 })
        = { kind := IterKind.eventsFailed, status := Status.running,
            state := { currentBlock := 100, retry := 4 },
            acts := [Action.latestBlock, Action.queryBlock 100,
              Action.handlerLookup (word32 9)] }
      ∧ sleepCount (pollIter sampleListener (iterEnv 200 (some [{ Log := [lookupFailsLog] }]))
          { currentBlock := 100, retry := 5 }).acts = 0
      ∧ (pollIter sampleListener latestFailsEnv { currentBlock := 100, retry := 5 })
        = { kind := IterKind.latestFailed, status := Status.running,
            state := { currentBlock := 100, retry := 4 },
            acts := [Action.latestBlock, Action.sleep] } := by
  decide

/-- C10, evaluated on the code, where the claim does not hold: when a deposit log with an
unrecognized handler comes first, `getDepositEventsForBlock` returns nil right after the handler
lookup of that log; the later deposit of the configured erc20 handler, which alone in the
block is sent, is not looked at, whether it is in the same transaction or in a later one. -/
theorem getDepositEventsForBlock_unknown_handler_returns :
    getDepositEventsForBlock sampleListener 100 (some mixedBlock)
        = (Outcome.ok, [Action.queryBlock 100, Action.handlerLookup (word32 9)])
      ∧ getDepositEventsForBlock sampleListener 100 (some mixedBlockTwoTx)
        = (Outcome.ok, [Action.queryBlock 100, Action.handlerLookup (word32 9)])
      ∧ getDepositEventsForBlock sampleListener 100 (some depositBlock)
        = (Outcome.ok, [Action.queryBlock 100, Action.handlerLookup (word32 9),
            Action.depositRecord 7 2, Action.send (sampleMessage 7)]) := by
  decide

/-- C3, evaluated on the code, where the claim does not hold: the tron `proposalIsComplete`
reads nothing from the chain and is false for every proposal, also for one that the bridge
reports as Passed (which the ethereum `proposalIsComplete` takes as complete), and
`ResolveMessage` never consults it: for a fungible message it builds and executes a vote
transaction, increments `VotesSubmitted` and returns true. -/
theorem tron_ResolveMessage_votes_on_passed (Hash : Bytes → Bytes) :
    Ethereum.proposalIsComplete (some { Status := PassedStatus }) = true
      ∧ (∀ (srcId nonce : Nat) (dataHash : Bytes),
          Tron.proposalIsComplete srcId nonce dataHash = false)
      ∧ Tron.ResolveMessage (tronWriter keyOne) Hash (sampleMessage 7) tronOk
          = { ret := some true,
              acts := [WAction.triggerContract (sampleVote maskedKeyOne),
                WAction.executeTransaction (sampleVote maskedKeyOne),
                WAction.incVotesSubmitted] } :=
  ⟨rfl, fun _ _ _ => rfl, rfl⟩

/-- C4, evaluated on the code, where the claim does not hold: whatever `utils.Hash` is, the
`dataHash` argument of the submitted vote is the value of `getDataHash` (here `maskedKeyOne`),
in the tron and in the ethereum writer; the hash that `createErc20Proposal` computed is not
used, and for one of two signers the submitted value differs from it. -/
theorem voteProposal_submits_getDataHash (Hash : Bytes → Bytes) :
    (Tron.createErc20Proposal (tronWriter keyOne) Hash (sampleMessage 7) tronOk).acts
        = [WAction.triggerContract (sampleVote maskedKeyOne),
            WAction.executeTransaction (sampleVote maskedKeyOne), WAction.incVotesSubmitted]
      ∧ (Ethereum.createErc20Proposal (ethWriter (bigBytes keyOne)) Hash (sampleMessage 7)
          (ethOk 0)).acts
        = [WAction.lockOpts, WAction.voteProposal (sampleVote maskedKeyOne),
            WAction.unlockOpts, WAction.incVotesSubmitted]
      ∧ (∃ (D : Nat) (a : VoteArgs),
          WAction.executeTransaction a
              ∈ (Tron.createErc20Proposal (tronWriter D) Hash (sampleMessage 7) tronOk).acts
            ∧ a.dataHash ≠ Hash ((tronWriter D).erc20HandlerContract ++ a.data))
      ∧ (∃ (k : Bytes) (a : VoteArgs),
          WAction.voteProposal a
              ∈ (Ethereum.createErc20Proposal (ethWriter k) Hash (sampleMessage 7)
                  (ethOk 0)).acts
            ∧ a.dataHash ≠ Hash ((ethWriter k).erc20HandlerContract ++ a.data)) := by
  have t1 : (Tron.createErc20Proposal (tronWriter keyOne) Hash (sampleMessage 7) tronOk).acts
      = [WAction.triggerContract (sampleVote maskedKeyOne),
          WAction.executeTransaction (sampleVote maskedKeyOne), WAction.incVotesSubmitted] := rfl
  have t2 : (Tron.createErc20Proposal (tronWriter keyTwo) Hash (sampleMessage 7) tronOk).acts
      = [WAction.triggerContract (sampleVote maskedKeyTwo),
          WAction.executeTransaction (sampleVote maskedKeyTwo), WAction.incVotesSubmitted] := rfl
  have e1 : (Ethereum.createErc20Proposal (ethWriter (bigBytes keyOne)) Hash (sampleMessage 7)
      (ethOk 0)).acts
      = [WAction.lockOpts, WAction.voteProposal (sampleVote maskedKeyOne),
          WAction.unlockOpts, WAction.incVotesSubmitted] := rfl
  have e2 : (Ethereum.createErc20Proposal (ethWriter (bigBytes keyTwo)) Hash (sampleMessage 7)
      (ethOk 0)).acts
      = [WAction.lockOpts, WAction.voteProposal (sampleVote maskedKeyTwo),
          WAction.unlockOpts, WAction.incVotesSubmitted] := rfl
  have hne : maskedKeyOne ≠ maskedKeyTwo := by decide
  refine ⟨t1, e1, ?_, ?_⟩
  · by_cases h : maskedKeyOne = Hash (List.replicate 21 0x41 ++ sampleData)
    · refine ⟨keyTwo, sampleVote maskedKeyTwo, by rw [t2]; simp, ?_⟩
      intro h2
      exact hne (h.trans h2.symm)
    · exact ⟨keyOne, sampleVote maskedKeyOne, by rw [t1]; simp, h⟩
  · by_cases h : maskedKeyOne = Hash (List.replicate 20 0x41 ++ sampleData)
    · refine ⟨bigBytes keyTwo, sampleVote maskedKeyTwo, by rw [e2]; simp, ?_⟩
      intro h2
      exact hne (h.trans h2.symm)
    · exact ⟨bigBytes keyOne, sampleVote maskedKeyOne, by rw [e1]; simp, h⟩

/-- C5, evaluated on the code, where the claim does not hold: two tron writers that differ
only in the private key submit different `dataHash` arguments for the same message, and
XOR-ing the submitted value with the mask of the deposit nonce gives back the bytes of the
private scalar. -/
theorem vote_arguments_carry_private_key (Hash : Bytes → Bytes) :
    { tronWriter keyOne with key := some keyTwo } = tronWriter keyTwo
      ∧ Tron.ResolveMessage (tronWriter keyOne) Hash (sampleMessage 7) tronOk
          = { ret := some true,
              acts := [WAction.triggerContract (sampleVote maskedKeyOne),
                WAction.executeTransaction (sampleVote maskedKeyOne),
                WAction.incVotesSubmitted] }
      ∧ Tron.ResolveMessage (tronWriter keyTwo) Hash (sampleMessage 7) tronOk
          = { ret := some true,
              acts := [WAction.triggerContract (sampleVote maskedKeyTwo),
                WAction.executeTransaction (sampleVote maskedKeyTwo),
                WAction.incVotesSubmitted] }
      ∧ sampleVote maskedKeyOne ≠ sampleVote maskedKeyTwo
      ∧ xorLoop maskedKeyOne 7 = some (bigBytes keyOne)
      ∧ xorLoop maskedKeyTwo 7 = some (bigBytes keyTwo) :=
  ⟨rfl, rfl, rfl, by decide, by decide, by decide⟩

theorem logsActs_append (l : Listener) (a b : List Log) :
    logsActs l (a ++ b) = logsActs l a ++ logsActs l b := by
  induction a with
  | nil => rfl
  | cons x xs ih =>
    simp only [logsActs, List.cons_append, List.foldr_cons, List.append_assoc] at ih ⊢
    rw [ih]

/-- The actions of the log loop are those of the loop body on the first logs of the list:
on all of them when the loop runs to its end, on those up to the log that returns otherwise. -/
theorem logLoop_acts (l : Listener) (logs : List Log) :
    (∀ acts, logLoop l logs = LogStep.next acts → acts = logsActs l logs)
      ∧ (∀ o acts, logLoop l logs = LogStep.ret o acts →
          ∃ n, n ≤ logs.length ∧ acts = logsActs l (logs.take n)) := by
  induction logs with
  | nil =>
    refine ⟨?_, ?_⟩
    · intro acts h
      simp only [logLoop, LogStep.next.injEq] at h
      rw [← h]
      rfl
    · intro o acts h
      simp [logLoop] at h
  | cons log rest ih =>
    obtain ⟨ih1, ih2⟩ := ih
    refine ⟨?_, ?_⟩
    · intro acts h
      unfold logLoop at h
      cases hl : handleLog l log with
      | ret o a => simp [hl] at h
      | next a =>
        cases hr : logLoop l rest with
        | ret o more => simp [hl, hr] at h
        | next more =>
          simp only [hl, hr, LogStep.next.injEq] at h
          rw [← h, ih1 more hr]
          simp [logsActs, hl, LogStep.acts]
    · intro o acts h
      unfold logLoop at h
      cases hl : handleLog l log with
      | ret o2 a =>
        simp only [hl, LogStep.ret.injEq] at h
        refine ⟨1, by simp, ?_⟩
        rw [← h.2]
        simp [logsActs, hl, LogStep.acts]
      | next a =>
        cases hr : logLoop l rest with
        | next more => simp [hl, hr] at h
        | ret o2 more =>
          simp only [hl, hr, LogStep.ret.injEq] at h
          obtain ⟨n, hn, hmore⟩ := ih2 o2 more hr
          refine ⟨n + 1, by simp [hn], ?_⟩
          rw [← h.2, hmore]
          simp [logsActs, hl, LogStep.acts]

theorem txLoop_acts (l : Listener) (txs : List TransactionInfo) :
    ∃ n, (txLoop l txs).2 = logsActs l ((blockLogs txs).take n) := by
  induction txs with
  | nil => exact ⟨0, rfl⟩
  | cons tx rest ih =>
    obtain ⟨h1, h2⟩ := logLoop_acts l tx.Log
    unfold txLoop
    cases hl : logLoop l tx.Log with
    | ret o acts =>
      obtain ⟨n, hn, hacts⟩ := h2 o acts hl
      refine ⟨n, ?_⟩
      simp only [blockLogs, List.foldr_cons]
      rw [List.take_append_of_le_length hn]
      exact hacts
    | next acts =>
      obtain ⟨n, hn⟩ := ih
      refine ⟨tx.Log.length + n, ?_⟩
      simp only [blockLogs, List.foldr_cons] at hn ⊢
      rw [List.take_append, logsActs_append, ← hn, h1 acts hl]

theorem handleLog_not_deposit (l : Listener) (log : Log)
    (h : isBridgeDeposit l log = false) : handleLog l log = LogStep.next []
      ∨ handleLog l log = LogStep.ret Outcome.crash [] := by
  obtain ⟨addr, topics, handler, deposit, sf⟩ := log
  unfold isBridgeDeposit at h
  unfold handleLog
  by_cases ha : l.bridgeContract = addr
  · rcases topics with _ | ⟨t0, ts⟩
    · right
      simp [ha]
    · left
      have : t0 ≠ l.depositTopic := by
        intro ht
        simp [ha, ht] at h
      simp [ha, this]
  · left
    simp [ha]

theorem sentMessages_logsActs (l : Listener) (logs : List Log) :
    sentMessages (logsActs l logs) = logsMessages l logs := by
  induction logs with
  | nil => rfl
  | cons x xs ih =>
    simp only [logsActs, logsMessages, List.foldr_cons] at ih ⊢
    rw [← ih]
    simp [sentMessages, List.filterMap_append]

theorem handleLog_sends_le_one (l : Listener) (log : Log) :
    (sentMessages (handleLog l log).acts).length ≤ 1 := by
  obtain ⟨addr, topics, handler, deposit, sf⟩ := log
  rcases topics with _ | ⟨t0, _ | ⟨t1, _ | ⟨t2, _ | ⟨t3, tl⟩⟩⟩⟩ <;>
    cases handler <;> cases deposit <;>
    simp only [handleLog, handleErc20DepositedEvent] <;>
    split_ifs <;>
    simp [LogStep.acts, sentMessages]

/-- C11: the actions of `getDepositEventsForBlock` after the block query are those of the loop
body on the first logs of the block, log by log in the order of the block, so the messages sent
are those of these logs in that order, at most one per log; a log whose address is not the
bridge or whose `topics[0]` is not the deposit topic causes no action at all, and a message is
sent for a log only if it passes both tests. -/
theorem getDepositEventsForBlock_only_bridge_deposits (l : Listener) (b : Int)
    (info : Option (List TransactionInfo)) :
    (∃ n, (getDepositEventsForBlock l b info).2
          = Action.queryBlock b :: logsActs l ((blockLogs (info.getD [])).take n)
        ∧ sentMessages (getDepositEventsForBlock l b info).2
          = logsMessages l ((blockLogs (info.getD [])).take n))
      ∧ (∀ log : Log, isBridgeDeposit l log = false → (handleLog l log).acts = [])
      ∧ (∀ (log : Log) (m : Message), Action.send m ∈ (handleLog l log).acts →
          log.Address = l.bridgeContract ∧ log.Topics.head? = some l.depositTopic)
      ∧ (∀ log : Log, (sentMessages (handleLog l log).acts).length ≤ 1) := by
  have hnot : ∀ log : Log, isBridgeDeposit l log = false → (handleLog l log).acts = [] := by
    intro log h
    rcases handleLog_not_deposit l log h with h1 | h1 <;> rw [h1] <;> rfl
  refine ⟨?_, hnot, ?_, handleLog_sends_le_one l⟩
  · obtain ⟨n, hn⟩ := txLoop_acts l (info.getD [])
    refine ⟨n, ?_, ?_⟩
    · simp only [getDepositEventsForBlock, hn]
    · simp only [getDepositEventsForBlock, hn]
      rw [← sentMessages_logsActs]
      rfl
  · intro log m hm
    by_cases h : isBridgeDeposit l log = true
    · simpa [isBridgeDeposit] using h
    · rw [hnot log (by simpa using h)] at hm
      simp at hm

/-- C12, evaluated on the code, where the claim does not hold: when `GetBlockInfoByNum` returns
an error, `getDepositEventsForBlock` returns nil after the query, for every listener and block;
the iteration of `pollBlocks` at cursor 100 then stores block 100, moves the cursor to 101 and
sets the retry counter back to `BlockRetryLimit` instead of decrementing it. -/
theorem getDepositEventsForBlock_rpc_error_is_nil (l : Listener) (b : Int) :
    getDepositEventsForBlock l b none = (Outcome.ok, [Action.queryBlock b])
      ∧ pollIter sampleListener (iterEnv 200 none) { currentBlock := 100, retry := 3 }
        = { kind := IterKind.processed, status := Status.running,
            state := { currentBlock := 101, retry := 5 },
            acts := [Action.latestBlock, Action.queryBlock 100, Action.storeBlock 100] } :=
  ⟨rfl, by decide⟩

theorem submissions_append (a b : List WAction) :
    submissions (a ++ b) = submissions a ++ submissions b := by
  simp [submissions, List.filterMap_append]

theorem builds_append (a b : List WAction) :
    builds (a ++ b) = builds a ++ builds b := by
  simp [builds, List.filterMap_append]

theorem eth_voteLoop_submissions_le (w : Ethereum.Writer) (m : Message) (dataHash data : Bytes)
    (env : Nat → Ethereum.VoteEnv) (n : Nat) :
    (submissions (Ethereum.voteLoop w m dataHash data env n).acts).length ≤ n := by
  induction n with
  | zero => simp [Ethereum.voteLoop, submissions]
  | succ n ih =>
    rw [Ethereum.voteLoop]
    generalize env (TxRetryLimit - (n + 1)) = e
    obtain ⟨stop, lock, submit, proposal⟩ := e
    cases stop <;> cases lock <;>
      cases hk : Ethereum.getDataHash w (m.DepositNonce % 2 ^ 64) data <;>
      cases submit <;> cases hc : Ethereum.proposalIsComplete proposal <;>
      simp only [hk, hc, submissions_append, Bool.false_eq_true, if_false, if_true,
        List.length_append] <;>
      first
        | (simp [submissions]; done)
        | (simp only [submissions, List.filterMap_cons, List.filterMap_nil, List.length_cons,
            List.length_nil] at ih ⊢; omega)
        | (split_ifs <;> simp [submissions])

theorem eth_voteLoop_returns (w : Ethereum.Writer) (m : Message) (dataHash data : Bytes)
    (env : Nat → Ethereum.VoteEnv) (h : Bytes)
    (hk : Ethereum.getDataHash w (m.DepositNonce % 2 ^ 64) data = some h) (n : Nat) :
    (Ethereum.voteLoop w m dataHash data env n).ret = some () := by
  induction n with
  | zero => rfl
  | succ n ih =>
    rw [Ethereum.voteLoop]
    generalize env (TxRetryLimit - (n + 1)) = e
    obtain ⟨stop, lock, submit, proposal⟩ := e
    cases stop <;> cases lock <;> cases submit <;>
      cases hc : Ethereum.proposalIsComplete proposal <;>
      simp only [hk, hc, Bool.false_eq_true, if_false, if_true, ih]

theorem tron_voteLoop_submissions_le (w : Tron.Writer) (m : Message) (data : Bytes)
    (env : Nat → Tron.VoteEnv) (n : Nat) :
    (submissions (Tron.voteLoop w m data env n).acts).length ≤ n
      ∧ (builds (Tron.voteLoop w m data env n).acts).length ≤ n := by
  induction n with
  | zero => simp [Tron.voteLoop, submissions, builds]
  | succ n ih =>
    rw [Tron.voteLoop]
    generalize env (TxRetryLimit - (n + 1)) = e
    obtain ⟨stop, trigger, execute⟩ := e
    cases stop <;> cases trigger <;> cases execute <;>
      cases hk : Tron.getDataHash w (m.DepositNonce % 2 ^ 64) data <;>
      simp only [hk, submissions_append, builds_append, Bool.false_eq_true, if_false, if_true,
        List.length_append] <;>
      first
        | (simp [submissions, builds]; done)
        | (simp only [submissions, builds, List.filterMap_cons, List.filterMap_nil,
            List.length_cons, List.length_nil] at ih ⊢; omega)
        | (split_ifs <;> simp [submissions, builds])

theorem tron_voteLoop_returns (w : Tron.Writer) (m : Message) (data : Bytes)
    (env : Nat → Tron.VoteEnv) (h : Bytes)
    (hk : Tron.getDataHash w (m.DepositNonce % 2 ^ 64) data = some h) (n : Nat) :
    (Tron.voteLoop w m data env n).ret = some () := by
  induction n with
  | zero => rfl
  | succ n ih =>
    rw [Tron.voteLoop]
    generalize env (TxRetryLimit - (n + 1)) = e
    obtain ⟨stop, trigger, execute⟩ := e
    cases stop <;> cases trigger <;> cases execute <;>
      simp only [hk, Bool.false_eq_true, if_false, if_true, ih]

/-- C13: one call of `voteProposal` makes at most `TxRetryLimit` vote submissions, whatever the
chain answers, in the ethereum writer and in the tron writer (which also builds at most
`TxRetryLimit` transactions); the loop is bounded, and the call returns unless `getDataHash`
faults. -/
theorem voteProposal_bounded (we : Ethereum.Writer) (wt : Tron.Writer) (m : Message)
    (dataHash data : Bytes) (ee : Nat → Ethereum.VoteEnv) (et : Nat → Tron.VoteEnv) :
    (submissions (Ethereum.voteProposal we m dataHash data ee).acts).length ≤ TxRetryLimit
      ∧ ((Ethereum.voteProposal we m dataHash data ee).ret = some ()
          ∨ Ethereum.getDataHash we (m.DepositNonce % 2 ^ 64) data = none)
      ∧ (submissions (Tron.voteProposal wt m dataHash data et).acts).length ≤ TxRetryLimit
      ∧ (builds (Tron.voteProposal wt m dataHash data et).acts).length ≤ TxRetryLimit
      ∧ ((Tron.voteProposal wt m dataHash data et).ret = some ()
          ∨ Tron.getDataHash wt (m.DepositNonce % 2 ^ 64) data = none) := by
  refine ⟨eth_voteLoop_submissions_le we m dataHash data ee TxRetryLimit, ?_,
    (tron_voteLoop_submissions_le wt m data et TxRetryLimit).1,
    (tron_voteLoop_submissions_le wt m data et TxRetryLimit).2, ?_⟩
  · cases hk : Ethereum.getDataHash we (m.DepositNonce % 2 ^ 64) data with
    | none => exact Or.inr rfl
    | some h => exact Or.inl (eth_voteLoop_returns we m dataHash data ee h hk TxRetryLimit)
  · cases hk : Tron.getDataHash wt (m.DepositNonce % 2 ^ 64) data with
    | none => exact Or.inr rfl
    | some h => exact Or.inl (tron_voteLoop_returns wt m data et h hk TxRetryLimit)

theorem eth_voteLoop_sysErr_iff (w : Ethereum.Writer) (m : Message) (dataHash data : Bytes)
    (env : Nat → Ethereum.VoteEnv) (n : Nat) (hn : n ≤ TxRetryLimit) :
    WAction.sysErr ∈ (Ethereum.voteLoop w m dataHash data env n).acts
      ↔ ∀ i, TxRetryLimit - n ≤ i → i < TxRetryLimit →
          ethIterationFails w m data (env i) = true := by
  induction n with
  | zero =>
    simp only [Ethereum.voteLoop, List.mem_singleton, true_iff]
    intro i h1 h2
    omega
  | succ n ih =>
    have ih := ih (by omega)
    have hsplit : (∀ i, TxRetryLimit - (n + 1) ≤ i → i < TxRetryLimit →
          ethIterationFails w m data (env i) = true)
        ↔ (ethIterationFails w m data (env (TxRetryLimit - (n + 1))) = true
            ∧ ∀ i, TxRetryLimit - n ≤ i → i < TxRetryLimit →
              ethIterationFails w m data (env i) = true) := by
      constructor
      · intro h
        exact ⟨h _ (le_refl _) (by omega), fun i h1 h2 => h i (by omega) h2⟩
      · rintro ⟨h0, h⟩ i h1 h2
        by_cases hi : i = TxRetryLimit - (n + 1)
        · rw [hi]; exact h0
        · exact h i (by omega) h2
    rw [hsplit, ← ih, Ethereum.voteLoop]
    unfold ethIterationFails
    generalize env (TxRetryLimit - (n + 1)) = e
    obtain ⟨stop, lock, submit, proposal⟩ := e
    cases stop <;> cases lock <;>
      cases hk : Ethereum.getDataHash w (m.DepositNonce % 2 ^ 64) data <;>
      cases submit <;> cases hc : Ethereum.proposalIsComplete proposal <;>
      simp [hk, hc]

theorem eth_voteLoop_sysErr_count (w : Ethereum.Writer) (m : Message) (dataHash data : Bytes)
    (env : Nat → Ethereum.VoteEnv) (n : Nat) :
    (Ethereum.voteLoop w m dataHash data env n).acts.count WAction.sysErr ≤ 1 := by
  induction n with
  | zero => simp [Ethereum.voteLoop]
  | succ n ih =>
    rw [Ethereum.voteLoop]
    generalize env (TxRetryLimit - (n + 1)) = e
    obtain ⟨stop, lock, submit, proposal⟩ := e
    cases stop <;> cases lock <;>
      cases hk : Ethereum.getDataHash w (m.DepositNonce % 2 ^ 64) data <;>
      cases submit <;> cases hc : Ethereum.proposalIsComplete proposal <;>
      simp only [hk, hc, Bool.false_eq_true, if_false, if_true] <;>
      first
        | (simp; done)
        | (simp only [List.count_append, List.count_cons, List.count_nil]; simpa using ih)
        | (split_ifs <;> simp)

/-- C14: the ethereum `voteProposal` posts `ErrFatalTx` if and only if every one of the
`TxRetryLimit` iterations completes without a successful submission (`stop` open, and either
the options refresh fails or the submission fails and the proposal is not complete after it);
it posts at most once, and when it posts no iteration has submitted successfully. -/
theorem ethereum_voteProposal_fatal_iff (w : Ethereum.Writer) (m : Message)
    (dataHash data : Bytes) (env : Nat → Ethereum.VoteEnv) :
    (WAction.sysErr ∈ (Ethereum.voteProposal w m dataHash data env).acts
        ↔ ∀ i, i < TxRetryLimit → ethIterationFails w m data (env i) = true)
      ∧ (Ethereum.voteProposal w m dataHash data env).acts.count WAction.sysErr ≤ 1
      ∧ (WAction.sysErr ∈ (Ethereum.voteProposal w m dataHash data env).acts →
          ∀ i, i < TxRetryLimit →
            (env i).stopClosed = false
              ∧ ¬ ((env i).lockFails = false
                    ∧ (env i).submit = Ethereum.SubmitAnswer.ok)
              ∧ ¬ ((env i).lockFails = false
                    ∧ Ethereum.proposalIsComplete (env i).proposal = true)) := by
  have hiff := eth_voteLoop_sysErr_iff w m dataHash data env TxRetryLimit (le_refl _)
  have hiff2 : WAction.sysErr ∈ (Ethereum.voteProposal w m dataHash data env).acts
      ↔ ∀ i, i < TxRetryLimit → ethIterationFails w m data (env i) = true := by
    unfold Ethereum.voteProposal
    rw [hiff]
    constructor
    · intro h i hi
      exact h i (by omega) hi
    · intro h i _ hi
      exact h i hi
  refine ⟨hiff2, eth_voteLoop_sysErr_count w m dataHash data env TxRetryLimit, ?_⟩
  intro hmem i hi
  have hf := hiff2.mp hmem i hi
  unfold ethIterationFails at hf
  generalize env i = e at hf ⊢
  obtain ⟨stop, lock, submit, proposal⟩ := e
  cases stop <;> cases lock <;> cases submit <;>
    cases hc : Ethereum.proposalIsComplete proposal <;> simp_all

theorem eth_voteLoop_retry_then_success (w : Ethereum.Writer) (m : Message)
    (dataHash data : Bytes) (env : Nat → Ethereum.VoteEnv) (h : Bytes)
    (hkey : Ethereum.getDataHash w (m.DepositNonce % 2 ^ 64) data = some h) :
    ∀ (k n : Nat), k < n → n ≤ TxRetryLimit →
      (∀ i, i < k →
        (env (TxRetryLimit - n + i)).stopClosed = false
          ∧ (env (TxRetryLimit - n + i)).lockFails = false
          ∧ (env (TxRetryLimit - n + i)).submit ≠ Ethereum.SubmitAnswer.ok
          ∧ Ethereum.proposalIsComplete (env (TxRetryLimit - n + i)).proposal = false) →
      ((env (TxRetryLimit - n + k)).stopClosed = false
          ∧ (env (TxRetryLimit - n + k)).lockFails = false
          ∧ (env (TxRetryLimit - n + k)).submit = Ethereum.SubmitAnswer.ok) →
      (submissions (Ethereum.voteLoop w m dataHash data env n).acts).length = k + 1
        ∧ (Ethereum.voteLoop w m dataHash data env n).acts.count WAction.incVotesSubmitted
            = (if w.hasMetrics then 1 else 0)
        ∧ (Ethereum.voteLoop w m dataHash data env n).acts.count WAction.sysErr = 0
        ∧ (Ethereum.voteLoop w m dataHash data env n).ret = some () := by
  intro k
  induction k with
  | zero =>
    intro n hkn hn _ hsucc
    obtain ⟨n, rfl⟩ : ∃ n2, n = n2 + 1 := ⟨n - 1, by omega⟩
    simp only [Nat.add_zero] at hsucc
    obtain ⟨h1, h2, h3⟩ := hsucc
    rw [Ethereum.voteLoop]
    simp only [h1, h2, h3, hkey, Bool.false_eq_true, if_false]
    refine ⟨?_, ?_, ?_, trivial⟩
    · split_ifs <;> simp [submissions]
    · split_ifs <;> simp
    · split_ifs <;> simp
  | succ k ih =>
    intro n hkn hn hfail hsucc
    obtain ⟨n, rfl⟩ : ∃ n2, n = n2 + 1 := ⟨n - 1, by omega⟩
    have hidx : ∀ i, TxRetryLimit - (n + 1) + (i + 1) = TxRetryLimit - n + i := by
      intro i
      omega
    have hrec := ih n (by omega) (by omega)
      (by
        intro i hi
        have := hfail (i + 1) (by omega)
        rwa [hidx] at this)
      (by rwa [hidx] at hsucc)
    obtain ⟨r1, r2, r3, r4⟩ := hrec
    obtain ⟨f1, f2, f3, f4⟩ := hfail 0 (by omega)
    simp only [Nat.add_zero] at f1 f2 f3 f4
    rw [Ethereum.voteLoop]
    simp only [f1, f2, f4, hkey, Bool.false_eq_true, if_false]
    cases hs : (env (TxRetryLimit - (n + 1))).submit with
    | ok => exact absurd hs f3
    | nonceTooLow =>
      simp only [submissions_append, List.length_append, List.count_append, r1, r2, r3, r4]
      simp [submissions]
      omega
    | underpriced =>
      simp only [submissions_append, List.length_append, List.count_append, r1, r2, r3, r4]
      simp [submissions]
      omega
    | failed =>
      simp only [submissions_append, List.length_append, List.count_append, r1, r2, r3, r4]
      simp [submissions]
      omega

/-- C15 as amended: in the ethereum `voteProposal`, when `getDataHash` is defined, the options
refresh always succeeds, the first `k` submissions fail with any error, the proposal is not
complete after each failure, `stop` stays open and submission `k + 1` succeeds
(`k < TxRetryLimit`), exactly `k + 1` votes are submitted, `VotesSubmitted` is incremented
exactly once when the writer has a metrics object and not at all when it has none, nothing is
posted to `sysErr` and the call returns. -/
theorem ethereum_voteProposal_retry_then_success (w : Ethereum.Writer) (m : Message)
    (dataHash data : Bytes) (env : Nat → Ethereum.VoteEnv) (k : Nat) (h : Bytes)
    (hk : k < TxRetryLimit)
    (hkey : Ethereum.getDataHash w (m.DepositNonce % 2 ^ 64) data = some h)
    (hfail : ∀ i, i < k →
      (env i).stopClosed = false ∧ (env i).lockFails = false
        ∧ (env i).submit ≠ Ethereum.SubmitAnswer.ok
        ∧ Ethereum.proposalIsComplete (env i).proposal = false)
    (hsucc : (env k).stopClosed = false ∧ (env k).lockFails = false
      ∧ (env k).submit = Ethereum.SubmitAnswer.ok) :
    (submissions (Ethereum.voteProposal w m dataHash data env).acts).length = k + 1
      ∧ (Ethereum.voteProposal w m dataHash data env).acts.count WAction.incVotesSubmitted
          = (if w.hasMetrics then 1 else 0)
      ∧ (Ethereum.voteProposal w m dataHash data env).acts.count WAction.sysErr = 0
      ∧ (Ethereum.voteProposal w m dataHash data env).ret = some () := by
  have := eth_voteLoop_retry_then_success w m dataHash data env h hkey k TxRetryLimit hk
    (le_refl _) (by simpa using hfail) (by simpa using hsucc)
  exact this

/-- The concrete run of C15: `nonce too low` twice, then success. -/
theorem ethereum_voteProposal_retry_then_success_witness :
    (submissions (Ethereum.voteProposal (ethWriter (bigBytes keyOne)) (sampleMessage 7)
        [] sampleData (ethFailsThenOk 2 Ethereum.SubmitAnswer.nonceTooLow)).acts).length = 2 + 1
      ∧ (Ethereum.voteProposal (ethWriter (bigBytes keyOne)) (sampleMessage 7)
          [] sampleData (ethFailsThenOk 2 Ethereum.SubmitAnswer.nonceTooLow)).acts.count
            WAction.incVotesSubmitted
          = (if (ethWriter (bigBytes keyOne)).hasMetrics then 1 else 0)
      ∧ (Ethereum.voteProposal (ethWriter (bigBytes keyOne)) (sampleMessage 7)
          [] sampleData (ethFailsThenOk 2 Ethereum.SubmitAnswer.nonceTooLow)).acts.count
            WAction.sysErr = 0
      ∧ (Ethereum.voteProposal (ethWriter (bigBytes keyOne)) (sampleMessage 7)
          [] sampleData (ethFailsThenOk 2 Ethereum.SubmitAnswer.nonceTooLow)).ret = some () :=
  ethereum_voteProposal_retry_then_success (ethWriter (bigBytes keyOne)) (sampleMessage 7)
    [] sampleData (ethFailsThenOk 2 Ethereum.SubmitAnswer.nonceTooLow) 2 maskedKeyOne
    (by decide) (by decide) (by decide) (by decide)

theorem eth_voteLoop_stop_closed (w : Ethereum.Writer) (m : Message) (dataHash data : Bytes)
    (env : Nat → Ethereum.VoteEnv) (i : Nat) (hstop : (env i).stopClosed = true) :
    ∀ n, n ≤ TxRetryLimit → TxRetryLimit - n ≤ i → i < TxRetryLimit →
      (submissions (Ethereum.voteLoop w m dataHash data env n).acts).length
          ≤ i - (TxRetryLimit - n)
        ∧ (Ethereum.voteLoop w m dataHash data env n).acts.count WAction.lockOpts
          ≤ i - (TxRetryLimit - n)
        ∧ (Ethereum.voteLoop w m dataHash data env n).acts.count WAction.sysErr = 0 := by
  intro n
  induction n with
  | zero =>
    intro _ h1 h2
    omega
  | succ n ih =>
    intro hn h1 h2
    by_cases hi : i = TxRetryLimit - (n + 1)
    · rw [Ethereum.voteLoop]
      rw [hi] at hstop
      simp [hstop, submissions]
    · obtain ⟨r1, r2, r3⟩ := ih (by omega) (by omega) h2
      have hpos : i - (TxRetryLimit - (n + 1)) = i - (TxRetryLimit - n) + 1 := by omega
      rw [hpos, Ethereum.voteLoop]
      generalize env (TxRetryLimit - (n + 1)) = e
      obtain ⟨stop, lock, submit, proposal⟩ := e
      cases stop <;> cases lock <;>
        cases hk : Ethereum.getDataHash w (m.DepositNonce % 2 ^ 64) data <;>
        cases submit <;> cases hc : Ethereum.proposalIsComplete proposal <;>
        simp only [hk, hc, Bool.false_eq_true, if_false, if_true, submissions_append,
          List.length_append, List.count_append] <;>
        first
          | (simp [submissions]; done)
          | (simp [submissions, r3] at r1 r2 ⊢; omega)
          | (split_ifs <;> simp [submissions])

theorem tron_voteLoop_stop_closed (w : Tron.Writer) (m : Message) (data : Bytes)
    (env : Nat → Tron.VoteEnv) (i : Nat) (hstop : (env i).stopClosed = true) :
    ∀ n, n ≤ TxRetryLimit → TxRetryLimit - n ≤ i → i < TxRetryLimit →
      (submissions (Tron.voteLoop w m data env n).acts).length ≤ i - (TxRetryLimit - n)
        ∧ (builds (Tron.voteLoop w m data env n).acts).length ≤ i - (TxRetryLimit - n)
        ∧ (Tron.voteLoop w m data env n).acts.count WAction.sysErr = 0 := by
  intro n
  induction n with
  | zero =>
    intro _ h1 h2
    omega
  | succ n ih =>
    intro hn h1 h2
    by_cases hi : i = TxRetryLimit - (n + 1)
    · rw [Tron.voteLoop]
      rw [hi] at hstop
      simp [hstop, submissions, builds]
    · obtain ⟨r1, r2, r3⟩ := ih (by omega) (by omega) h2
      have hpos : i - (TxRetryLimit - (n + 1)) = i - (TxRetryLimit - n) + 1 := by omega
      rw [hpos, Tron.voteLoop]
      generalize env (TxRetryLimit - (n + 1)) = e
      obtain ⟨stop, trigger, execute⟩ := e
      cases stop <;> cases trigger <;> cases execute <;>
        cases hk : Tron.getDataHash w (m.DepositNonce % 2 ^ 64) data <;>
        simp only [hk, Bool.false_eq_true, if_false, if_true, submissions_append,
          builds_append, List.length_append, List.count_append] <;>
        first
          | (simp [submissions, builds]; done)
          | (simp [submissions, builds, r3] at r1 r2 ⊢; omega)
          | (split_ifs <;> simp [submissions, builds])

/-- C16, evaluated on the code, where the claim does not hold: when `TriggerContract` returns an
error in the first iteration, the tron `voteProposal` returns at once, without a sleep, without
a further iteration and without posting `ErrFatalTx`, although `stop` is open and nothing was
submitted; when `ExecuteTransaction` fails every time it sleeps ten times and then posts. -/
theorem tron_voteProposal_build_error_returns :
    Tron.voteProposal (tronWriter keyOne) (sampleMessage 7) [] sampleData tronTriggerFails
        = { ret := some (), acts := [WAction.triggerContract (sampleVote maskedKeyOne)] }
      ∧ (Tron.voteProposal (tronWriter keyOne) (sampleMessage 7) [] sampleData
          tronExecuteFails).acts.count WAction.sleep = 10
      ∧ (submissions (Tron.voteProposal (tronWriter keyOne) (sampleMessage 7) [] sampleData
          tronExecuteFails).acts).length = 10
      ∧ (Tron.voteProposal (tronWriter keyOne) (sampleMessage 7) [] sampleData
          tronExecuteFails).acts.getLast? = some WAction.sysErr := by
  decide

/-- C17: when `stop` is closed at the head of iteration `i` of `voteProposal`, the loop from
that iteration on does nothing and returns, in the ethereum and in the tron writer; the whole
call then posts nothing to `sysErr`, submits at most `i` votes (those of the earlier
iterations) and takes the options lock at most `i` times; with `i = 0` it does nothing. -/
theorem voteProposal_stop_closed (we : Ethereum.Writer) (wt : Tron.Writer) (m : Message)
    (dataHash data : Bytes) (ee : Nat → Ethereum.VoteEnv) (et : Nat → Tron.VoteEnv) (i : Nat)
    (hi : i < TxRetryLimit) (hE : (ee i).stopClosed = true) (hT : (et i).stopClosed = true) :
    Ethereum.voteLoop we m dataHash data ee (TxRetryLimit - i) = { ret := some (), acts := [] }
      ∧ Tron.voteLoop wt m data et (TxRetryLimit - i) = { ret := some (), acts := [] }
      ∧ (submissions (Ethereum.voteProposal we m dataHash data ee).acts).length ≤ i
      ∧ (Ethereum.voteProposal we m dataHash data ee).acts.count WAction.lockOpts ≤ i
      ∧ (Ethereum.voteProposal we m dataHash data ee).acts.count WAction.sysErr = 0
      ∧ (submissions (Tron.voteProposal wt m dataHash data et).acts).length ≤ i
      ∧ (builds (Tron.voteProposal wt m dataHash data et).acts).length ≤ i
      ∧ (Tron.voteProposal wt m dataHash data et).acts.count WAction.sysErr = 0
      ∧ (i = 0 →
          Ethereum.voteProposal we m dataHash data ee = { ret := some (), acts := [] }
            ∧ Tron.voteProposal wt m dataHash data et = { ret := some (), acts := [] }) := by
  obtain ⟨n, hn⟩ : ∃ n, TxRetryLimit - i = n + 1 := ⟨TxRetryLimit - i - 1, by omega⟩
  have hidx : TxRetryLimit - (n + 1) = i := by omega
  have e1 : Ethereum.voteLoop we m dataHash data ee (TxRetryLimit - i)
      = { ret := some (), acts := [] } := by
    rw [hn, Ethereum.voteLoop]
    simp [hidx, hE]
  have t1 : Tron.voteLoop wt m data et (TxRetryLimit - i) = { ret := some (), acts := [] } := by
    rw [hn, Tron.voteLoop]
    simp [hidx, hT]
  obtain ⟨a1, a2, a3⟩ := eth_voteLoop_stop_closed we m dataHash data ee i hE TxRetryLimit
    (le_refl _) (by omega) hi
  obtain ⟨b1, b2, b3⟩ := tron_voteLoop_stop_closed wt m data et i hT TxRetryLimit
    (le_refl _) (by omega) hi
  simp only [Nat.sub_self, Nat.sub_zero] at a1 a2 b1 b2
  refine ⟨e1, t1, a1, a2, a3, b1, b2, b3, ?_⟩
  intro h0
  subst h0
  exact ⟨e1, t1⟩

/-- The concrete run of C17: `stop` is closed before the first iteration. -/
theorem voteProposal_stop_closed_witness :
    Ethereum.voteLoop (ethWriter (bigBytes keyOne)) (sampleMessage 7) [] sampleData ethStopped
        (TxRetryLimit - 0) = { ret := some (), acts := [] }
      ∧ Tron.voteLoop (tronWriter keyOne) (sampleMessage 7) sampleData tronStopped
        (TxRetryLimit - 0) = { ret := some (), acts := [] }
      ∧ (submissions (Ethereum.voteProposal (ethWriter (bigBytes keyOne)) (sampleMessage 7) []
          sampleData ethStopped).acts).length ≤ 0
      ∧ (Ethereum.voteProposal (ethWriter (bigBytes keyOne)) (sampleMessage 7) []
          sampleData ethStopped).acts.count WAction.lockOpts ≤ 0
      ∧ (Ethereum.voteProposal (ethWriter (bigBytes keyOne)) (sampleMessage 7) []
          sampleData ethStopped).acts.count WAction.sysErr = 0
      ∧ (submissions (Tron.voteProposal (tronWriter keyOne) (sampleMessage 7) []
          sampleData tronStopped).acts).length ≤ 0
      ∧ (builds (Tron.voteProposal (tronWriter keyOne) (sampleMessage 7) []
          sampleData tronStopped).acts).length ≤ 0
      ∧ (Tron.voteProposal (tronWriter keyOne) (sampleMessage 7) []
          sampleData tronStopped).acts.count WAction.sysErr = 0
      ∧ (0 = 0 →
          Ethereum.voteProposal (ethWriter (bigBytes keyOne)) (sampleMessage 7) []
              sampleData ethStopped = { ret := some (), acts := [] }
            ∧ Tron.voteProposal (tronWriter keyOne) (sampleMessage 7) []
              sampleData tronStopped = { ret := some (), acts := [] }) :=
  voteProposal_stop_closed (ethWriter (bigBytes keyOne)) (tronWriter keyOne) (sampleMessage 7)
    [] sampleData ethStopped tronStopped 0 (by decide) rfl rfl

/-- C18: in the ethereum `voteProposal`, when the submission of iteration `i` fails and
`proposalIsComplete` is true afterwards, the loop from that iteration on is: take the lock,
submit, release, sleep, query the proposal, return; no further vote, no increment of
`VotesSubmitted`, and the call posts nothing to `sysErr`, also when `i` is the last
iteration. -/
theorem ethereum_voteProposal_reconcile (w : Ethereum.Writer) (m : Message)
    (dataHash data : Bytes) (env : Nat → Ethereum.VoteEnv) (i : Nat) (h : Bytes)
    (hi : i < TxRetryLimit)
    (hkey : Ethereum.getDataHash w (m.DepositNonce % 2 ^ 64) data = some h)
    (hstop : (env i).stopClosed = false) (hlock : (env i).lockFails = false)
    (hsub : (env i).submit ≠ Ethereum.SubmitAnswer.ok)
    (hc : Ethereum.proposalIsComplete (env i).proposal = true) :
    Ethereum.voteLoop w m dataHash data env (TxRetryLimit - i)
        = { ret := some (),
            acts := [WAction.lockOpts,
              WAction.voteProposal
                { srcId := m.Source % 2 ^ 8, nonce := m.DepositNonce % 2 ^ 64,
                  resourceId := m.ResourceId, data := data, dataHash := h },
              WAction.unlockOpts, WAction.sleep,
              WAction.getProposal m.Source m.DepositNonce dataHash] }
      ∧ WAction.sysErr ∉ (Ethereum.voteProposal w m dataHash data env).acts := by
  obtain ⟨n, hn⟩ : ∃ n, TxRetryLimit - i = n + 1 := ⟨TxRetryLimit - i - 1, by omega⟩
  have hidx : TxRetryLimit - (n + 1) = i := by omega
  refine ⟨?_, ?_⟩
  · rw [hn, Ethereum.voteLoop]
    simp only [hidx, hstop, hlock, hkey, hc, Bool.false_eq_true, if_false, if_true]
    cases hs : (env i).submit with
    | ok => exact absurd hs hsub
    | nonceTooLow => rfl
    | underpriced => rfl
    | failed => rfl
  · intro hmem
    have hall := (eth_voteLoop_sysErr_iff w m dataHash data env TxRetryLimit (le_refl _)).mp
      hmem i (by omega) hi
    simp [ethIterationFails, hstop, hlock, hc] at hall

/-- The concrete run of C18: the last iteration fails and the proposal is Passed. -/
theorem ethereum_voteProposal_reconcile_witness :
    Ethereum.voteLoop (ethWriter (bigBytes keyOne)) (sampleMessage 7) [] sampleData (ethFails 2)
        (TxRetryLimit - 9)
        = { ret := some (),
            acts := [WAction.lockOpts,
              WAction.voteProposal
                { srcId := (sampleMessage 7).Source % 2 ^ 8,
                  nonce := (sampleMessage 7).DepositNonce % 2 ^ 64,
                  resourceId := (sampleMessage 7).ResourceId, data := sampleData,
                  dataHash := maskedKeyOne },
              WAction.unlockOpts, WAction.sleep,
              WAction.getProposal (sampleMessage 7).Source (sampleMessage 7).DepositNonce []] }
      ∧ WAction.sysErr ∉ (Ethereum.voteProposal (ethWriter (bigBytes keyOne)) (sampleMessage 7)
          [] sampleData (ethFails 2)).acts :=
  ethereum_voteProposal_reconcile (ethWriter (bigBytes keyOne)) (sampleMessage 7) [] sampleData
    (ethFails 2) 9 maskedKeyOne (by decide) (by decide) rfl rfl (by decide) (by decide)

/-- C19, evaluated on the code, where the claim does not hold: `shouldVote` is false for a
proposal that is Passed and for one the relayer has voted on, but no proposal constructor calls
it: with the bridge reporting the proposal as Passed, each of the three constructors submits
one vote. -/
theorem ethereum_create_proposal_votes_unchecked (Hash : Bytes → Bytes) :
    Ethereum.shouldVote (some { Status := PassedStatus }) (some false) = false
      ∧ Ethereum.shouldVote (some { Status := 1 }) (some true) = false
      ∧ (Ethereum.createErc20Proposal (ethWriter (bigBytes keyOne)) Hash (sampleMessage 7)
          (ethOk PassedStatus)).acts
        = [WAction.lockOpts, WAction.voteProposal (sampleVote maskedKeyOne),
            WAction.unlockOpts, WAction.incVotesSubmitted]
      ∧ (submissions (Ethereum.createErc721Proposal (ethWriter (bigBytes keyOne)) Hash
          { sampleMessage 7 with Type_ := TransferType.NonFungibleTransfer,
                                 Payload := [[5], [0xaa, 0xbb], [1]] }
          (ethOk PassedStatus)).acts).length = 1
      ∧ (submissions (Ethereum.createGenericDepositProposal (ethWriter (bigBytes keyOne)) Hash
          { sampleMessage 7 with Type_ := TransferType.GenericTransfer, Payload := [[1]] }
          (ethOk PassedStatus)).acts).length = 1 :=
  ⟨rfl, rfl, rfl, rfl, rfl⟩

/-- C20: the ethereum `proposalIsComplete` is true exactly when `GetProposal` succeeds with
status Passed (2), Transferred (3) or Cancelled (4), and `proposalIsFinalized` exactly when it
succeeds with Transferred or Cancelled; both are false for Inactive (0), Active (1) and a
failed query, and a finalized proposal is complete. -/
theorem ethereum_proposal_status_predicates (ans : Option BridgeProposal) :
    (Ethereum.proposalIsComplete ans = true
        ↔ ∃ s, ans = some { Status := s }
            ∧ (s = PassedStatus ∨ s = TransferredStatus ∨ s = CancelledStatus))
      ∧ (Ethereum.proposalIsFinalized ans = true
        ↔ ∃ s, ans = some { Status := s } ∧ (s = TransferredStatus ∨ s = CancelledStatus))
      ∧ (PassedStatus = 2 ∧ TransferredStatus = 3 ∧ CancelledStatus = 4)
      ∧ Ethereum.proposalIsComplete none = false
      ∧ Ethereum.proposalIsFinalized none = false
      ∧ Ethereum.proposalIsComplete (some { Status := 0 }) = false
      ∧ Ethereum.proposalIsComplete (some { Status := 1 }) = false
      ∧ Ethereum.proposalIsFinalized (some { Status := 0 }) = false
      ∧ Ethereum.proposalIsFinalized (some { Status := 1 }) = false
      ∧ Ethereum.proposalIsFinalized (some { Status := 2 }) = false
      ∧ (Ethereum.proposalIsFinalized ans = true → Ethereum.proposalIsComplete ans = true) := by
  refine ⟨?_, ?_, ⟨rfl, rfl, rfl⟩, rfl, rfl, rfl, rfl, rfl, rfl, rfl, ?_⟩
  · cases ans with
    | none => simp [Ethereum.proposalIsComplete]
    | some prop =>
      obtain ⟨s⟩ := prop
      simp [Ethereum.proposalIsComplete, or_assoc]
  · cases ans with
    | none => simp [Ethereum.proposalIsFinalized]
    | some prop =>
      obtain ⟨s⟩ := prop
      simp [Ethereum.proposalIsFinalized]
  · cases ans with
    | none => simp [Ethereum.proposalIsFinalized]
    | some prop =>
      obtain ⟨s⟩ := prop
      simp only [Ethereum.proposalIsFinalized, Ethereum.proposalIsComplete, Bool.or_eq_true]
      intro h
      rcases h with h | h
      · exact Or.inl (Or.inr h)
      · exact Or.inr h

/-- C21, evaluated on the code, where the claim does not hold: when refreshing the options
fails in the first iteration, `executeProposal` returns at once, with no submission and nothing
posted, where `voteProposal` goes through all ten iterations and posts `ErrFatalTx`; the rest
of the claim is what the code does: ten failed submissions with the proposal not finalized end
in one post, and a failed submission with the proposal Transferred returns. -/
theorem ethereum_executeProposal_lock_error_returns :
    Ethereum.executeProposal (sampleMessage 7) sampleData [] execLockFails
        = { ret := some (), acts := [WAction.lockOpts] }
      ∧ (Ethereum.voteProposal (ethWriter (bigBytes keyOne)) (sampleMessage 7) [] sampleData
          ethLockFails).acts = List.replicate 10 WAction.lockOpts ++ [WAction.sysErr]
      ∧ (executions (Ethereum.executeProposal (sampleMessage 7) sampleData []
          (execFails 2)).acts).length = 10
      ∧ (Ethereum.executeProposal (sampleMessage 7) sampleData []
          (execFails 2)).acts.count WAction.sysErr = 1
      ∧ Ethereum.executeProposal (sampleMessage 7) sampleData [] (execFails 3)
        = { ret := some (),
            acts := [WAction.lockOpts, WAction.executeProposal 1 7 sampleData (word32 9),
              WAction.unlockOpts, WAction.sleep, WAction.getProposal 1 7 []] } := by
  decide

/-- C23, the claim as stated fails: with start block 100 configured and cursor 5 persisted,
the listener resumes from block 100, which is 95 blocks away from the cursor. -/
theorem setupBlockstore_resume_far_from_cursor :
    setupBlockstore { startBlock := 100, freshStart := false } false (some 5)
        = some { startBlock := 100, freshStart := false }
      ∧ ¬ (|(100 : Int) - 5| ≤ 1) := by
  decide

/-- C23 as amended: with `freshStart = false` and cursor `P` loaded, the listener resumes from
`max C P`, which is not negative and not below `P`, and is within 1 of `P` exactly when
`C ≤ P + 1`; with `freshStart = true` the cursor is not read and the start block stays `C`. -/
theorem setupBlockstore_resume (C P : Int) (hC : 0 ≤ C) :
    setupBlockstore { startBlock := C, freshStart := false } false (some P)
        = some { startBlock := max C P, freshStart := false }
      ∧ 0 ≤ max C P ∧ P ≤ max C P
      ∧ (|max C P - P| ≤ 1 ↔ C ≤ P + 1)
      ∧ (∀ load : Option Int,
          setupBlockstore { startBlock := C, freshStart := true } false load
            = some { startBlock := C, freshStart := true }) := by
  refine ⟨?_, ?_, ?_, ?_, ?_⟩
  · unfold setupBlockstore
    by_cases h : P > C
    · simp [h, max_eq_right (le_of_lt h)]
    · simp [h, max_eq_left (not_lt.mp h)]
  · exact le_max_of_le_left hC
  · exact le_max_right C P
  · rw [abs_le]
    rcases le_total C P with h | h
    · rw [max_eq_right h]
      constructor <;> intro _ <;> omega
    · rw [max_eq_left h]
      constructor
      · intro h1; omega
      · intro h1; constructor <;> omega
  · intro load
    simp [setupBlockstore]

/-- The concrete case of C23 as amended: start block 3 configured, cursor 40 persisted. -/
theorem setupBlockstore_resume_witness :
    setupBlockstore { startBlock := 3, freshStart := false } false (some 40)
        = some { startBlock := max 3 40, freshStart := false }
      ∧ (0 : Int) ≤ max 3 40 ∧ (40 : Int) ≤ max 3 40
      ∧ (|max (3 : Int) 40 - 40| ≤ 1 ↔ (3 : Int) ≤ 40 + 1)
      ∧ (∀ load : Option Int,
          setupBlockstore { startBlock := 3, freshStart := true } false load
            = some { startBlock := 3, freshStart := true }) :=
  setupBlockstore_resume 3 40 (by decide)

/-- C24, the claim as stated fails: on the chain that `InitializeChain` returns, the first
`Stop` completes and the second one faults, closing a channel that is already closed. -/
theorem Chain_Stop_twice_faults :
    initialChain.Stop
        = some { conn := some { hasClient := true, stop := Chan.closed }, stop := Chan.closed,
                 started := false }
      ∧ (initialChain.Stop).bind Chain.Stop = none := by
  decide

/-- C25, evaluated on the code, where the claim does not hold: `EnsureHasBytecode` returns nil
exactly when the address text decodes, whatever code the chain holds at the address, so the
contract checks of `InitializeChain` pass on a chain where no account holds code. -/
theorem EnsureHasBytecode_ignores_chain (Base58ToAddress : List Char → Option Bytes)
    (code1 code2 : Bytes → Bytes) (addr bridge erc20 erc721 generic : List Char) :
    EnsureHasBytecode Base58ToAddress code1 addr
        = (if (Base58ToAddress addr).isSome then Outcome.ok else Outcome.error)
      ∧ EnsureHasBytecode Base58ToAddress code1 addr
        = EnsureHasBytecode Base58ToAddress code2 addr
      ∧ ensureContracts Base58ToAddress code1 bridge erc20 erc721 generic
        = ensureContracts Base58ToAddress code2 bridge erc20 erc721 generic
      ∧ noCode (List.replicate 21 0x41) = []
      ∧ EnsureHasBytecode sampleBase58 noCode "TBridge".toList = Outcome.ok
      ∧ ensureContracts sampleBase58 noCode "TBridge".toList "TBridge".toList [] []
        = Outcome.ok := by
  refine ⟨?_, rfl, rfl, rfl, by decide, by decide⟩
  unfold EnsureHasBytecode
  cases Base58ToAddress addr <;> rfl

/-- C29, evaluated on the code, where the claim does not hold: when the `getDepositRecord` call
fails or gives no constant result, or when the ABI unpacking fails, `handleErc20DepositedEvent`
faults at `cResult[0]` or `out[0]` instead of returning an error, and the listener iteration
ends in that fault; only a failed `json.Unmarshal` is returned as an error. -/
theorem handleErc20DepositedEvent_faults_on_empty_result :
    (handleErc20DepositedEvent sampleListener 2 7 RecordAnswer.noResult).2.1 = Outcome.crash
      ∧ (handleErc20DepositedEvent sampleListener 2 7 RecordAnswer.unpackFailed).2.1
        = Outcome.crash
      ∧ (handleErc20DepositedEvent sampleListener 2 7 RecordAnswer.unmarshalFailed).2.1
        = Outcome.error
      ∧ (getDepositEventsForBlock sampleListener 100
          (recordEnv RecordAnswer.noResult).blockInfo).1 = Outcome.crash
      ∧ (pollIter sampleListener (recordEnv RecordAnswer.noResult)
          { currentBlock := 100, retry := 5 }).status = Status.crashed
      ∧ (pollIter sampleListener (recordEnv RecordAnswer.unpackFailed)
          { currentBlock := 100, retry := 5 }).status = Status.crashed := by
  decide

theorem pollIter_cursor (l : Listener) (e : IterEnv) (s : PollState) :
    (pollIter l e s).state.currentBlock
        = s.currentBlock + (if (pollIter l e s).kind = IterKind.processed then 1 else 0)
      ∧ storedBlocks (pollIter l e s).acts
        = (if (pollIter l e s).kind = IterKind.processed then [s.currentBlock] else []) := by
  have hst := storedBlocks_getDepositEventsForBlock l s.currentBlock e.blockInfo
  have hknown : ∀ latest : Int,
      storedBlocks (Action.latestBlock :: withMetrics l [Action.setLatestKnown latest])
        = [] := by
    intro latest
    unfold withMetrics
    split <;> rfl
  have hproc : ∀ latest : Int, storedBlocks
      (withMetrics l [Action.incBlocksProcessed, Action.setLatestProcessed latest]) = [] :=
    fun latest => storedBlocks_withMetrics l _ rfl
  by_cases h1 : e.stopClosed = true
  · simp [pollIter, h1, storedBlocks]
  · by_cases h2 : s.retry = 0
    · simp [pollIter, h1, h2, storedBlocks]
    · cases hl : e.latest with
      | none => simp [pollIter, h1, h2, hl, storedBlocks]
      | some latest =>
        by_cases h3 : latest - s.currentBlock < l.blockConfirmations
        · simp only [pollIter, h1, h2, hl, h3, if_true, if_false, Bool.false_eq_true]
          simp only [storedBlocks_append, hknown]
          simp [storedBlocks]
        · cases ho : (getDepositEventsForBlock l s.currentBlock e.blockInfo).1 <;>
            simp only [pollIter, h1, h2, hl, h3, ho, if_true, if_false, Bool.false_eq_true] <;>
            simp only [storedBlocks_append, hknown, hst, hproc] <;>
            simp [storedBlocks]

theorem runActs_cons (r : IterResult) (tr : List IterResult) :
    runActs (r :: tr) = r.acts ++ runActs tr := rfl

theorem pollTrace_stored (l : Listener) (es : List IterEnv) :
    ∀ s : PollState,
      storedBlocks (runActs (pollTrace l es s))
        = (List.range (((pollTrace l es s).map IterResult.kind).count IterKind.processed)).map
            (fun j : Nat => s.currentBlock + (j : Int)) := by
  induction es with
  | nil => intro s; simp [pollTrace, runActs, storedBlocks]
  | cons e es ih =>
    intro s
    obtain ⟨hc, hs⟩ := pollIter_cursor l e s
    by_cases hrun : (pollIter l e s).status = Status.running
    · rw [pollTrace_cons_running l e es s hrun, runActs_cons, storedBlocks_append, hs,
        ih (pollIter l e s).state, hc]
      by_cases hk : (pollIter l e s).kind = IterKind.processed
      · simp only [hk, if_true, List.map_cons, List.count_cons_self, List.range_succ_eq_map,
          List.map_map, List.singleton_append]
        simp only [List.map_cons, Nat.cast_zero, add_zero, List.cons.injEq, true_and]
        apply List.map_congr_left
        intro j _
        simp only [Function.comp, Nat.cast_succ]
        ring
      · simp only [hk, if_false, List.map_cons, add_zero, List.nil_append]
        rw [List.count_cons_of_ne (fun h => hk h.symm)]
    · rw [pollTrace_cons_ended l e es s hrun]
      simp only [runActs, List.foldr_cons, List.foldr_nil, List.append_nil, hs, List.map_cons,
        List.map_nil]
      by_cases hk : (pollIter l e s).kind = IterKind.processed
      · simp [hk, List.range_succ]
      · simp only [hk, if_false]
        rw [List.count_cons_of_ne (fun h => hk h.symm)]
        simp

theorem pollTrace_head (l : Listener) (es : List IterEnv) (s : PollState) (r : IterResult)
    (h : (pollTrace l es s).get? 0 = some r) : ∃ e, r = pollIter l e s := by
  cases es with
  | nil => simp [pollTrace] at h
  | cons e es =>
    refine ⟨e, ?_⟩
    by_cases hrun : (pollIter l e s).status = Status.running
    · rw [pollTrace_cons_running l e es s hrun] at h
      simpa using h.symm
    · rw [pollTrace_cons_ended l e es s hrun] at h
      simpa using h.symm

theorem pollTrace_chain (l : Listener) (es : List IterEnv) :
    ∀ (s : PollState) (k : Nat) (r r2 : IterResult),
      (pollTrace l es s).get? k = some r → (pollTrace l es s).get? (k + 1) = some r2 →
      ∃ e, r2 = pollIter l e r.state := by
  induction es with
  | nil => intro s k r r2 h; simp [pollTrace] at h
  | cons e es ih =>
    intro s k r r2 h1 h2
    by_cases hrun : (pollIter l e s).status = Status.running
    · rw [pollTrace_cons_running l e es s hrun] at h1 h2
      cases k with
      | zero =>
        simp only [List.get?_cons_zero, Option.some.injEq] at h1
        subst h1
        exact pollTrace_head l es _ r2 (by simpa using h2)
      | succ k =>
        exact ih _ k r r2 (by simpa using h1) (by simpa using h2)
    · rw [pollTrace_cons_ended l e es s hrun] at h2
      simp at h2

/-- C26: in a run of `pollBlocks` the first iteration starts from the configured start block
and every further iteration from the cursor the one before left; an iteration moves the
cursor by 1 when it processes the block and leaves it as it is otherwise, so the cursor never
decreases; the heights passed to `StoreBlock` are the start block and its successors, one per
processed block. -/
theorem pollBlocks_cursor_never_rewound (l : Listener) (es : List IterEnv) :
    (∀ r : IterResult, (pollBlocks l es).get? 0 = some r →
        r.state.currentBlock
          = l.startBlock + (if r.kind = IterKind.processed then 1 else 0))
      ∧ (∀ (k : Nat) (r r2 : IterResult), (pollBlocks l es).get? k = some r →
          (pollBlocks l es).get? (k + 1) = some r2 →
          r2.state.currentBlock
              = r.state.currentBlock + (if r2.kind = IterKind.processed then 1 else 0)
            ∧ r.state.currentBlock ≤ r2.state.currentBlock)
      ∧ storedBlocks (runActs (pollBlocks l es))
          = (List.range (((pollBlocks l es).map IterResult.kind).count
              IterKind.processed)).map (fun j : Nat => l.startBlock + (j : Int)) := by
  refine ⟨?_, ?_, pollTrace_stored l es _⟩
  · intro r h
    obtain ⟨e, he⟩ := pollTrace_head l es _ r h
    rw [he]
    exact (pollIter_cursor l e _).1
  · intro k r r2 h1 h2
    obtain ⟨e, he⟩ := pollTrace_chain l es _ k r r2 h1 h2
    have := (pollIter_cursor l e r.state).1
    rw [← he] at this
    refine ⟨this, ?_⟩
    rw [this]
    split_ifs <;> omega

theorem mapM_option_eq_map {α β : Type} (f : α → Option β) (g : α → β) (xs : List α)
    (h : ∀ x ∈ xs, f x = some (g x)) : xs.mapM f = some (xs.map g) := by
  induction xs with
  | nil => rfl
  | cons x xs ih =>
    have h1 := h x (List.mem_cons_self x xs)
    have h2 := ih (fun y hy => h y (List.mem_cons_of_mem x hy))
    rw [List.mapM_cons, h1, h2]
    rfl

theorem mapM_option_eq_none {α β : Type} (f : α → Option β) (xs : List α) (x : α)
    (hx : x ∈ xs) (h : f x = none) : xs.mapM f = none := by
  induction xs with
  | nil => simp at hx
  | cons y ys ih =>
    rcases List.mem_cons.mp hx with h1 | h1
    · subst h1
      rw [List.mapM_cons, h]
      rfl
    · have := ih h1
      rw [List.mapM_cons, this]
      cases f y <;> rfl

theorem xorLoop_eq (k : Bytes) (n : Nat) (hk : 32 ≤ k.length) :
    xorLoop k n
      = some ((List.range 32).map
          (fun i => k.getD i 0 ^^^ (keyBytes n).getD (i % 8) 0)) := by
  unfold xorLoop
  apply mapM_option_eq_map
  intro i hi
  have hi2 : i < k.length := by
    have := List.mem_range.mp hi
    omega
  simp [List.get?_eq_get hi2, List.getD_eq_getElem?_getD, List.getElem?_eq_getElem hi2]

theorem xorLoop_none (k : Bytes) (n : Nat) (hk : k.length < 32) : xorLoop k n = none := by
  unfold xorLoop
  apply mapM_option_eq_none _ _ k.length (List.mem_range.mpr hk)
  simp [List.get?_eq_none.mpr (le_refl k.length)]

theorem keyBytes_length (n : Nat) : (keyBytes n).length = 8 := by
  simp [keyBytes]

theorem keyBytes_getD (n j : Nat) (hj : j < 8) :
    (keyBytes n).getD j 0 = (2 ^ 64 - 1 - n % 2 ^ 64) / 256 ^ j % 256 := by
  have h256 : (256 : Nat) ^ j = 2 ^ (8 * j) := by
    rw [show (256 : Nat) = 2 ^ 8 by norm_num, ← pow_mul]
  unfold keyBytes
  rw [List.getD_eq_getElem?_getD, List.getElem?_map, List.getElem?_range hj]
  simp [Nat.shiftRight_eq_div_pow, h256]

theorem take32_eq_map_range (k : Bytes) (hk : 32 ≤ k.length) :
    k.take 32 = (List.range 32).map (fun i => k.getD i 0) := by
  apply List.ext_getElem
  · simp [hk]
  · intro i h1 h2
    have hi : i < k.length := by
      simp at h2
      omega
    simp [List.getD_eq_getElem?_getD, List.getElem?_eq_getElem hi]

/-- The value of `getDataHash` on a key encoding of at least 32 bytes, and what XOR-ing it
with the same mask gives. -/
theorem xorLoop_spec (k : Bytes) (n : Nat) (hk : 32 ≤ k.length) :
    ∃ h, xorLoop k n = some h ∧ h.length = 32
      ∧ (∀ i, i < 32 → h.getD i 0 = k.getD i 0 ^^^ (keyBytes n).getD (i % 8) 0)
      ∧ xorLoop h n = some (k.take 32) := by
  refine ⟨_, xorLoop_eq k n hk, by simp, ?_, ?_⟩
  · intro i hi
    rw [List.getD_eq_getElem?_getD, List.getElem?_map, List.getElem?_range hi]
    rfl
  · rw [xorLoop_eq _ n (by simp), take32_eq_map_range k hk]
    congr 1
    apply List.map_congr_left
    intro i hi
    have hi2 : i < 32 := List.mem_range.mp hi
    rw [List.getD_eq_getElem?_getD, List.getElem?_map, List.getElem?_range hi2]
    simp only [Option.map_some', Option.getD_some]
    rw [Nat.xor_assoc, Nat.xor_self, Nat.xor_zero]

/-- C27: for a deposit nonce `n < 2^64` and a key encoding of at least 32 bytes, `getDataHash`
returns 32 bytes, byte `i` being `k[i] XOR mask[i mod 8]` with `mask` the 8 bytes of
`2^64 - 1 - n`, least significant first; the payload plays no part, and XOR-ing the result
with the same mask gives back the first 32 bytes of the key encoding. In the ethereum writer
`k` is `Keypair().Encode()`, in the tron writer `D.Bytes()` of the unlocked key. -/
theorem getDataHash_formula (we : Ethereum.Writer) (wt : Tron.Writer) (D n : Nat)
    (data : Bytes) (hn : n < 2 ^ 64) (hk : 32 ≤ we.signByte.length) (ht : wt.key = some D)
    (hD : 32 ≤ (bigBytes D).length) :
    (∃ h, Ethereum.getDataHash we n data = some h ∧ h.length = 32
        ∧ (∀ i, i < 32 →
            h.getD i 0 = we.signByte.getD i 0 ^^^ (keyBytes n).getD (i % 8) 0)
        ∧ xorLoop h n = some (we.signByte.take 32)
        ∧ ∀ data2, Ethereum.getDataHash we n data2 = some h)
      ∧ (∃ h, Tron.getDataHash wt n data = some h ∧ h.length = 32
        ∧ (∀ i, i < 32 →
            h.getD i 0 = (bigBytes D).getD i 0 ^^^ (keyBytes n).getD (i % 8) 0)
        ∧ xorLoop h n = some ((bigBytes D).take 32)
        ∧ ∀ data2, Tron.getDataHash wt n data2 = some h)
      ∧ (keyBytes n).length = 8
      ∧ (∀ j, j < 8 → (keyBytes n).getD j 0 = (2 ^ 64 - 1 - n) / 256 ^ j % 256) := by
  refine ⟨?_, ?_, keyBytes_length n, ?_⟩
  · obtain ⟨h, h1, h2, h3, h4⟩ := xorLoop_spec we.signByte n hk
    exact ⟨h, h1, h2, h3, h4, fun _ => h1⟩
  · obtain ⟨h, h1, h2, h3, h4⟩ := xorLoop_spec (bigBytes D) n hD
    have hg : ∀ d : Bytes, Tron.getDataHash wt n d = some h := by
      intro d
      simp only [Tron.getDataHash, ht]
      exact h1
    exact ⟨h, hg data, h2, h3, h4, hg⟩
  · intro j hj
    rw [keyBytes_getD n j hj, Nat.mod_eq_of_lt hn]

/-- The concrete case of C27: the 32-byte key `keyOne` and deposit nonce 7. -/
theorem getDataHash_formula_witness :
    (∃ h, Ethereum.getDataHash (ethWriter (bigBytes keyOne)) 7 sampleData = some h
        ∧ h.length = 32
        ∧ (∀ i, i < 32 →
            h.getD i 0
              = (ethWriter (bigBytes keyOne)).signByte.getD i 0 ^^^ (keyBytes 7).getD (i % 8) 0)
        ∧ xorLoop h 7 = some ((ethWriter (bigBytes keyOne)).signByte.take 32)
        ∧ ∀ data2, Ethereum.getDataHash (ethWriter (bigBytes keyOne)) 7 data2 = some h)
      ∧ (∃ h, Tron.getDataHash (tronWriter keyOne) 7 sampleData = some h ∧ h.length = 32
        ∧ (∀ i, i < 32 →
            h.getD i 0 = (bigBytes keyOne).getD i 0 ^^^ (keyBytes 7).getD (i % 8) 0)
        ∧ xorLoop h 7 = some ((bigBytes keyOne).take 32)
        ∧ ∀ data2, Tron.getDataHash (tronWriter keyOne) 7 data2 = some h)
      ∧ (keyBytes 7).length = 8
      ∧ (∀ j, j < 8 → (keyBytes 7).getD j 0 = (2 ^ 64 - 1 - 7) / 256 ^ j % 256) :=
  getDataHash_formula (ethWriter (bigBytes keyOne)) (tronWriter keyOne) keyOne 7 sampleData
    (by decide) (by decide) rfl (by decide)

theorem bigBytesAux_eq_digits (fuel : Nat) :
    ∀ (n : Nat) (acc : Bytes), n ≤ fuel →
      bigBytesAux fuel n acc = (Nat.digits 256 n).reverse ++ acc := by
  induction fuel with
  | zero =>
    intro n acc hn
    have : n = 0 := by omega
    subst this
    simp [bigBytesAux]
  | succ fuel ih =>
    intro n acc hn
    unfold bigBytesAux
    by_cases h0 : n = 0
    · subst h0
      simp
    · have hpos : 0 < n := Nat.pos_of_ne_zero h0
      have hdiv : n / 256 ≤ fuel := by
        have : n / 256 < n := Nat.div_lt_self hpos (by norm_num)
        omega
      rw [if_neg h0, ih (n / 256) _ hdiv, Nat.digits_def' (by norm_num) hpos]
      simp

theorem bigBytes_eq_digits (n : Nat) : bigBytes n = (Nat.digits 256 n).reverse := by
  unfold bigBytes
  rw [bigBytesAux_eq_digits n n [] (le_refl n)]
  simp

theorem bigBytes_length_ge_32 (D : Nat) : 32 ≤ (bigBytes D).length ↔ 2 ^ 248 ≤ D := by
  rw [bigBytes_eq_digits, List.length_reverse]
  constructor
  · intro h1
    have hD : D ≠ 0 := by
      intro h0
      subst h0
      simp at h1
    have h2 := Nat.base_pow_length_digits_le 256 D (by norm_num) hD
    have h3 : 256 ^ 32 ≤ 256 ^ (Nat.digits 256 D).length :=
      Nat.pow_le_pow_right (by norm_num) h1
    have h4 : (256 : Nat) ^ 32 = 256 * 2 ^ 248 := by norm_num
    omega
  · intro h1
    by_contra h2
    have h3 : (Nat.digits 256 D).length ≤ 31 := by omega
    have h4 := Nat.lt_base_pow_length_digits (b := 256) (m := D) (by norm_num)
    have h5 : 256 ^ (Nat.digits 256 D).length ≤ 256 ^ 31 :=
      Nat.pow_le_pow_right (by norm_num) h3
    have h6 : (256 : Nat) ^ 31 = 2 ^ 248 := by norm_num
    omega

/-- C28: with the private scalar `D` of the unlocked key, the tron `getDataHash` returns a
value (of 32 bytes) if and only if `D.Bytes()` has at least 32 bytes, that is `D ≥ 2^248`;
for `D < 2^248` the read `signByte[31]` is out of range, `getDataHash` faults for every nonce
and `voteProposal` faults before it builds anything. -/
theorem tron_getDataHash_needs_32_bytes (wt : Tron.Writer) (D n : Nat) (data : Bytes)
    (ht : wt.key = some D) :
    ((Tron.getDataHash wt n data).isSome = true ↔ 32 ≤ (bigBytes D).length)
      ∧ (32 ≤ (bigBytes D).length ↔ 2 ^ 248 ≤ D)
      ∧ (∀ h, Tron.getDataHash wt n data = some h → h.length = 32)
      ∧ (D < 2 ^ 248 → (bigBytes D).get? 31 = none ∧ Tron.getDataHash wt n data = none)
      ∧ (D < 2 ^ 248 → ∀ (m : Message) (dataHash : Bytes) (env : Nat → Tron.VoteEnv),
          (env 0).stopClosed = false →
          Tron.voteProposal wt m dataHash data env = { ret := none, acts := [] }) := by
  have hget : ∀ (k : Nat) (d : Bytes), Tron.getDataHash wt k d = xorLoop (bigBytes D) k := by
    intro k d
    simp only [Tron.getDataHash, ht]
  have hshort : D < 2 ^ 248 → (bigBytes D).length < 32 := by
    intro h
    by_contra h2
    have := (bigBytes_length_ge_32 D).mp (by omega)
    omega
  refine ⟨?_, bigBytes_length_ge_32 D, ?_, ?_, ?_⟩
  · rw [hget]
    constructor
    · intro h
      by_contra h2
      rw [xorLoop_none (bigBytes D) n (by omega)] at h
      simp at h
    · intro h
      rw [xorLoop_eq (bigBytes D) n h]
      rfl
  · intro h hh
    rw [hget] at hh
    by_cases hl : 32 ≤ (bigBytes D).length
    · rw [xorLoop_eq (bigBytes D) n hl] at hh
      simp only [Option.some.injEq] at hh
      rw [← hh]
      simp
    · rw [xorLoop_none (bigBytes D) n (by omega)] at hh
      cases hh
  · intro h
    have hl := hshort h
    exact ⟨List.get?_eq_none.mpr (by omega), by rw [hget]; exact xorLoop_none _ _ hl⟩
  · intro h m dataHash env hstop
    have hl := hshort h
    have hnone : Tron.getDataHash wt (m.DepositNonce % 2 ^ 64) data = none := by
      rw [hget]
      exact xorLoop_none _ _ hl
    have hT : TxRetryLimit = 9 + 1 := rfl
    unfold Tron.voteProposal
    rw [hT, Tron.voteLoop]
    simp only [hnone]
    have h0 : TxRetryLimit - (9 + 1) = 0 := rfl
    rw [h0, hstop]
    rfl

/-- The concrete case of C28: the 32-byte scalar `keyOne`. -/
theorem tron_getDataHash_needs_32_bytes_witness :
    ((Tron.getDataHash (tronWriter keyOne) 7 sampleData).isSome = true
        ↔ 32 ≤ (bigBytes keyOne).length)
      ∧ (32 ≤ (bigBytes keyOne).length ↔ 2 ^ 248 ≤ keyOne)
      ∧ (∀ h, Tron.getDataHash (tronWriter keyOne) 7 sampleData = some h → h.length = 32)
      ∧ (keyOne < 2 ^ 248 → (bigBytes keyOne).get? 31 = none
          ∧ Tron.getDataHash (tronWriter keyOne) 7 sampleData = none)
      ∧ (keyOne < 2 ^ 248 → ∀ (m : Message) (dataHash : Bytes) (env : Nat → Tron.VoteEnv),
          (env 0).stopClosed = false →
          Tron.voteProposal (tronWriter keyOne) m dataHash sampleData env
            = { ret := none, acts := [] }) :=
  tron_getDataHash_needs_32_bytes (tronWriter keyOne) keyOne 7 sampleData rfl

theorem splitSep_no_sep (p : Bytes) :
    ∀ acc : Bytes, containsSep p = false → splitSep p acc = [acc.reverse ++ p] := by
  induction p with
  | nil => intro acc _; simp [splitSep]
  | cons c p ih =>
    intro acc h
    rcases p with _ | ⟨d, _ | ⟨e, rest⟩⟩
    · simp [splitSep]
    · simp [splitSep]
    · simp only [containsSep] at h
      have hc : ¬ (c = 58 ∧ d = 47 ∧ e = 47) := by
        intro hh
        simp [hh] at h
      rw [if_neg hc] at h
      rw [splitSep, if_neg hc, ih (c :: acc) h]
      simp

theorem splitSep_append_sep (s p : Bytes) :
    ∀ acc : Bytes, containsSep s = false →
      splitSep (s ++ schemeSep ++ p) acc = (acc.reverse ++ s) :: splitSep p [] := by
  induction s with
  | nil =>
    intro acc _
    simp [schemeSep, splitSep]
  | cons c s ih =>
    intro acc h
    rcases s with _ | ⟨d, _ | ⟨e, rest⟩⟩
    · have := ih (c :: acc) rfl
      simp only [schemeSep, List.nil_append, List.cons_append] at this ⊢
      rw [splitSep, if_neg (by simp), this]
      simp
    · have := ih (c :: acc) rfl
      simp only [schemeSep, List.nil_append, List.cons_append] at this ⊢
      rw [splitSep, if_neg (by simp), this]
      simp
    · simp only [containsSep] at h
      have hc : ¬ (c = 58 ∧ d = 47 ∧ e = 47) := by
        intro hh
        simp [hh] at h
      rw [if_neg hc] at h
      have := ih (c :: acc) h
      simp only [List.cons_append] at this ⊢
      rw [splitSep, if_neg hc, this]
      simp

theorem splitSep_ne_nil (s : Bytes) : ∀ acc : Bytes, splitSep s acc ≠ [] := by
  induction s with
  | nil => intro acc; simp [splitSep]
  | cons c s ih =>
    intro acc
    rcases s with _ | ⟨d, _ | ⟨e, rest⟩⟩
    · simp [splitSep]
    · simp [splitSep]
    · rw [splitSep]
      split_ifs
      · simp
      · exact ih (c :: acc)

theorem splitSep_single (s : Bytes) :
    ∀ (acc p : Bytes), splitSep s acc = [p] → p = acc.reverse ++ s := by
  induction s with
  | nil => intro acc p h; simpa [splitSep] using h.symm
  | cons c s ih =>
    intro acc p h
    rcases s with _ | ⟨d, _ | ⟨e, rest⟩⟩
    · simpa [splitSep] using h.symm
    · simpa [splitSep] using h.symm
    · rw [splitSep] at h
      split_ifs at h with hc
      · simp only [List.cons.injEq] at h
        exact absurd h.2 (splitSep_ne_nil rest [])
      · have := ih (c :: acc) p h
        simpa using this

theorem splitSep_pair (s : Bytes) :
    ∀ (acc p0 p1 : Bytes), splitSep s acc = [p0, p1] →
      acc.reverse ++ s = p0 ++ schemeSep ++ p1 := by
  induction s with
  | nil => intro acc p0 p1 h; simp [splitSep] at h
  | cons c s ih =>
    intro acc p0 p1 h
    rcases s with _ | ⟨d, _ | ⟨e, rest⟩⟩
    · simp [splitSep] at h
    · simp [splitSep] at h
    · rw [splitSep] at h
      split_ifs at h with hc
      · simp only [List.cons.injEq] at h
        obtain ⟨h0, h1⟩ := h
        have hp := splitSep_single rest [] p1 h1
        obtain ⟨rfl, rfl, rfl⟩ := hc
        rw [← h0, hp]
        simp [schemeSep]
      · have := ih (c :: acc) p0 p1 h
        simpa using this

/-- C30: for a URL with a non-empty scheme and no `://` inside scheme or path,
`parseURL(u.String())` succeeds with `u`; and for every string, `parseURL` fails exactly when
the string does not split on `://` into two parts with a non-empty first one, and when it
succeeds the string is the scheme, `://` and the path of the URL returned. -/
theorem parseURL_String_roundtrip (u : URL) (s : Bytes) (hS : u.Scheme ≠ [])
    (h1 : containsSep u.Scheme = false) (h2 : containsSep u.Path = false) :
    parseURL u.String = some u
      ∧ (parseURL s = none ↔ ¬ ∃ p0 p1, splitSep s [] = [p0, p1] ∧ p0 ≠ [])
      ∧ (∀ v : URL, parseURL s = some v → v.String = s ∧ v.Scheme ≠ []) := by
  refine ⟨?_, ?_, ?_⟩
  · unfold URL.String parseURL
    rw [if_pos hS, splitSep_append_sep u.Scheme u.Path [] h1, splitSep_no_sep u.Path [] h2]
    simp [hS]
  · unfold parseURL
    constructor
    · rintro h ⟨p0, p1, hsp, hne⟩
      rw [hsp] at h
      simp [hne] at h
    · intro h
      split
      · rename_i p0 p1 hsp
        by_cases hp : p0 = []
        · simp [hp]
        · exact absurd ⟨p0, p1, hsp, hp⟩ h
      · rfl
  · intro v hv
    unfold parseURL at hv
    split at hv
    · rename_i p0 p1 hsp
      by_cases hp : p0 = []
      · simp [hp] at hv
      · simp only [if_neg hp, Option.some.injEq] at hv
        have := splitSep_pair s [] p0 p1 hsp
        subst hv
        simp only [List.reverse_nil, List.nil_append] at this
        exact ⟨by simp [URL.String, hp, this], hp⟩
    · cases hv

/-- The concrete case of C30: the URL `keystore:///tmp/key` and the text `nourl`. -/
theorem parseURL_String_roundtrip_witness :
    parseURL (URL.String { Scheme := ascii "keystore", Path := ascii "/tmp/key" })
        = some { Scheme := ascii "keystore", Path := ascii "/tmp/key" }
      ∧ (parseURL (ascii "nourl") = none
          ↔ ¬ ∃ p0 p1, splitSep (ascii "nourl") [] = [p0, p1] ∧ p0 ≠ [])
      ∧ (∀ v : URL, parseURL (ascii "nourl") = some v →
          v.String = ascii "nourl" ∧ v.Scheme ≠ []) :=
  parseURL_String_roundtrip { Scheme := ascii "keystore", Path := ascii "/tmp/key" }
    (ascii "nourl") (by decide) (by decide) (by decide)

theorem pollIter_env (l : Listener) (e : IterEnv) (B : Int) (n : Nat)
    (hstop : e.stopClosed = false) (hn : (n : Int) ≠ BlockRetryLimit) :
    (envOutcome l B e = EnvOutcome.failed →
        (pollIter l e { currentBlock := B, retry := BlockRetryLimit - n }).status
            = Status.running
          ∧ (pollIter l e { currentBlock := B, retry := BlockRetryLimit - n }).state
            = { currentBlock := B, retry := BlockRetryLimit - ((n + 1 : Nat) : Int) })
      ∧ (envOutcome l B e = EnvOutcome.waits →
        (pollIter l e { currentBlock := B, retry := BlockRetryLimit - n }).status
            = Status.running
          ∧ (pollIter l e { currentBlock := B, retry := BlockRetryLimit - n }).state
            = { currentBlock := B, retry := BlockRetryLimit - n })
      ∧ (envOutcome l B e = EnvOutcome.processed →
        (pollIter l e { currentBlock := B, retry := BlockRetryLimit - n }).status
            = Status.running
          ∧ (pollIter l e { currentBlock := B, retry := BlockRetryLimit - n }).state
            = { currentBlock := B + 1, retry := BlockRetryLimit - ((0 : Nat) : Int) })
      ∧ (envOutcome l B e = EnvOutcome.crashed →
        (pollIter l e { currentBlock := B, retry := BlockRetryLimit - n }).status
            = Status.crashed) := by
  have hretry : ¬ (BlockRetryLimit - (n : Int) = 0) := by
    intro h
    apply hn
    omega
  unfold envOutcome pollIter
  simp only [hstop, Bool.false_eq_true, if_false, hretry]
  cases hl : e.latest with
  | none =>
    simp only [reduceCtorEq, false_implies, true_implies, and_true, true_and]
    congr 1
    push_cast
    ring
  | some latest =>
    simp only
    by_cases h3 : latest - B < l.blockConfirmations
    · simp [h3]
    · simp only [h3, if_false]
      cases ho : (getDepositEventsForBlock l B e.blockInfo).1
      · simp
      · simp only [reduceCtorEq, false_implies, true_implies, and_true, true_and]
        congr 1
        push_cast
        ring
      · simp

theorem pollTrace_refines (l : Listener) (es : List IterEnv)
    (hstop : ∀ e ∈ es, e.stopClosed = false) :
    ∀ (B : Int) (n k : Nat) (e : IterEnv), es.get? k = some e →
      (∀ B2 n2, specFailures l (es.take k) B n = some (B2, n2) →
          (pollTrace l es { currentBlock := B, retry := BlockRetryLimit - n }).get? k
            = some (pollIter l e { currentBlock := B2, retry := BlockRetryLimit - n2 }))
        ∧ (specFailures l (es.take k) B n = none →
          (pollTrace l es { currentBlock := B, retry := BlockRetryLimit - n }).get? k
            = none) := by
  induction es with
  | nil => intro B n k e h; simp at h
  | cons e0 es ih =>
    intro B n k e hget
    have hst : e0.stopClosed = false := hstop e0 (List.mem_cons_self e0 es)
    have hrest : ∀ e2 ∈ es, e2.stopClosed = false :=
      fun e2 h2 => hstop e2 (List.mem_cons_of_mem e0 h2)
    have hhead : ∀ s : PollState, (pollTrace l (e0 :: es) s).get? 0 = some (pollIter l e0 s) := by
      intro s
      by_cases hrun : (pollIter l e0 s).status = Status.running
      · rw [pollTrace_cons_running l e0 es s hrun]
        rfl
      · rw [pollTrace_cons_ended l e0 es s hrun]
        rfl
    cases k with
    | zero =>
      simp only [List.get?_cons_zero, Option.some.injEq] at hget
      subst hget
      refine ⟨?_, ?_⟩
      · intro B2 n2 h
        simp only [List.take_zero, specFailures, Option.some.injEq, Prod.mk.injEq] at h
        obtain ⟨rfl, rfl⟩ := h
        exact hhead _
      · intro h
        simp [specFailures] at h
    | succ k =>
      have hget2 : es.get? k = some e := by simpa using hget
      simp only [List.take_succ_cons, specFailures]
      by_cases hn : (n : Int) = BlockRetryLimit
      · have hfatal : (pollIter l e0 { currentBlock := B, retry := BlockRetryLimit - n }).kind
            = IterKind.fatal := by
          rw [pollIter_fatal_iff l e0 _ hst]
          simp [hn]
        have hended : (pollIter l e0 { currentBlock := B, retry := BlockRetryLimit - n }).status
            ≠ Status.running := by
          rw [(pollIter_fatal_result l e0 _ hfatal).1]
          simp
        rw [if_pos hn]
        refine ⟨fun B2 n2 h => (by cases h), fun _ => ?_⟩
        rw [pollTrace_cons_ended l e0 es _ hended]
        rfl
      · rw [if_neg hn]
        obtain ⟨hf, hw, hp, hc⟩ := pollIter_env l e0 B n hst hn
        cases ho : envOutcome l B e0 with
        | failed =>
          obtain ⟨h1, h2⟩ := hf ho
          simp only
          rw [pollTrace_cons_running l e0 es _ h1, h2]
          simpa using ih hrest B (n + 1) k e hget2
        | waits =>
          obtain ⟨h1, h2⟩ := hw ho
          simp only
          rw [pollTrace_cons_running l e0 es _ h1, h2]
          simpa using ih hrest B n k e hget2
        | processed =>
          obtain ⟨h1, h2⟩ := hp ho
          simp only
          rw [pollTrace_cons_running l e0 es _ h1, h2]
          simpa using ih hrest (B + 1) 0 k e hget2
        | crashed =>
          have h1 := hc ho
          have hended : (pollIter l e0
              { currentBlock := B, retry := BlockRetryLimit - n }).status ≠ Status.running := by
            rw [h1]
            simp
          simp only
          refine ⟨fun B2 n2 h => (by cases h), fun _ => ?_⟩
          rw [pollTrace_cons_ended l e0 es _ hended]
          rfl

/-- C9: in a run of `pollBlocks` in which `stop` is never closed, count the failed iterations
since the start or since the last processed block from the answers of the outside world alone
(an iteration fails when `LatestBlock` or `getDepositEventsForBlock` returns an error). As long
as the run is not over, iteration `k` takes place, and it posts `ErrFatalPolling` to `sysErr`
exactly when that count before it is `BlockRetryLimit`; it then does nothing else, returns nil
and is the last iteration. Once the run is over no iteration takes place, and a whole run
posts at most once. -/
theorem pollBlocks_fatal_polling (l : Listener) (es : List IterEnv)
    (hstop : ∀ e ∈ es, e.stopClosed = false) :
    (∀ (k : Nat) (e : IterEnv), es.get? k = some e →
        (∀ B n, specFailures l (es.take k) l.startBlock 0 = some (B, n) →
            ∃ r, (pollBlocks l es).get? k = some r
              ∧ (Action.sysErr ∈ r.acts ↔ (n : Int) = BlockRetryLimit)
              ∧ ((n : Int) = BlockRetryLimit →
                  r.acts = [Action.sysErr] ∧ r.status = Status.returned false
                    ∧ (pollBlocks l es).length = k + 1)
              ∧ ((n : Int) ≠ BlockRetryLimit →
                  r.state.currentBlock
                      = B + (if envOutcome l B e = EnvOutcome.processed then 1 else 0)
                    ∧ (envOutcome l B e = EnvOutcome.failed →
                        r.state.retry = BlockRetryLimit - n - 1)))
          ∧ (specFailures l (es.take k) l.startBlock 0 = none →
              (pollBlocks l es).get? k = none))
      ∧ (runActs (pollBlocks l es)).count Action.sysErr ≤ 1 := by
  refine ⟨?_, pollTrace_sysErr_count l es _⟩
  intro k e hget
  have hst : e.stopClosed = false := hstop e (List.get?_mem hget)
  have href := pollTrace_refines l es hstop l.startBlock 0 k e hget
  have hinit : ({ currentBlock := l.startBlock, retry := BlockRetryLimit - ((0 : Nat) : Int) }
      : PollState) = { currentBlock := l.startBlock, retry := BlockRetryLimit } := by
    simp
  rw [hinit] at href
  refine ⟨?_, href.2⟩
  intro B n hspec
  have hk := href.1 B n hspec
  refine ⟨_, hk, ?_, ?_, ?_⟩
  · rw [sysErr_mem_pollIter, pollIter_fatal_iff l e _ hst]
    simp only
    constructor <;> intro h <;> omega
  · intro hn
    have hfatal : (pollIter l e { currentBlock := B, retry := BlockRetryLimit - n }).kind
        = IterKind.fatal := by
      rw [pollIter_fatal_iff l e _ hst]
      simp [hn]
    obtain ⟨h1, h2⟩ := pollIter_fatal_result l e _ hfatal
    refine ⟨h2, h1, ?_⟩
    exact (pollTrace_ended_last l es _ k _ hk (by rw [h1]; simp)).symm
  · intro hn
    obtain ⟨hf, hw, hp, hc⟩ := pollIter_env l e B n hst hn
    have hcur := (pollIter_cursor l e { currentBlock := B, retry := BlockRetryLimit - n }).1
    refine ⟨?_, ?_⟩
    · cases ho : envOutcome l B e with
      | failed => rw [(hf ho).2]; simp
      | waits => rw [(hw ho).2]; simp
      | processed => rw [(hp ho).2]; simp
      | crashed =>
        rw [hcur]
        simp only [reduceCtorEq, if_false, add_zero, add_right_inj]
        have hne : (pollIter l e { currentBlock := B, retry := BlockRetryLimit - n }).kind
            ≠ IterKind.processed := by
          intro hkk
          have := hc ho
          revert this hkk
          unfold pollIter
          simp only [hst, Bool.false_eq_true, if_false]
          split_ifs <;> try simp
          cases hl : e.latest with
          | none => simp
          | some latest =>
            simp only
            split_ifs
            · simp
            · cases (getDepositEventsForBlock l B e.blockInfo).1 <;> simp
        simp [hne]
    · intro ho
      rw [(hf ho).2]
      simp only
      push_cast
      ring

/-- The concrete run of C9: `LatestBlock` fails in five iterations and a sixth follows; before
the sixth the count is 5. -/
theorem pollBlocks_fatal_polling_witness :
    specFailures sampleListener (List.replicate 5 latestFailsEnv) sampleListener.startBlock 0
        = some (100, 5)
      ∧ ((∀ (k : Nat) (e : IterEnv), (List.replicate 6 latestFailsEnv).get? k = some e →
        (∀ B n, specFailures sampleListener ((List.replicate 6 latestFailsEnv).take k)
              sampleListener.startBlock 0 = some (B, n) →
            ∃ r, (pollBlocks sampleListener (List.replicate 6 latestFailsEnv)).get? k = some r
              ∧ (Action.sysErr ∈ r.acts ↔ (n : Int) = BlockRetryLimit)
              ∧ ((n : Int) = BlockRetryLimit →
                  r.acts = [Action.sysErr] ∧ r.status = Status.returned false
                    ∧ (pollBlocks sampleListener (List.replicate 6 latestFailsEnv)).length
                        = k + 1)
              ∧ ((n : Int) ≠ BlockRetryLimit →
                  r.state.currentBlock
                      = B + (if envOutcome sampleListener B e = EnvOutcome.processed
                              then 1 else 0)
                    ∧ (envOutcome sampleListener B e = EnvOutcome.failed →
                        r.state.retry = BlockRetryLimit - n - 1)))
          ∧ (specFailures sampleListener ((List.replicate 6 latestFailsEnv).take k)
                sampleListener.startBlock 0 = none →
              (pollBlocks sampleListener (List.replicate 6 latestFailsEnv)).get? k = none))
      ∧ (runActs (pollBlocks sampleListener
          (List.replicate 6 latestFailsEnv))).count Action.sysErr ≤ 1) :=
  ⟨by decide,
    pollBlocks_fatal_polling sampleListener (List.replicate 6 latestFailsEnv) (by decide)⟩

/-- C15, the claim as stated fails: for a writer without a metrics object, `nonce too low`
twice and then success gives three submissions and no increment of `VotesSubmitted`. -/
theorem ethereum_voteProposal_no_metrics_no_increment :
    (submissions (Ethereum.voteProposal
        { ethWriter (bigBytes keyOne) with hasMetrics := false } (sampleMessage 7) []
        sampleData (ethFailsThenOk 2 Ethereum.SubmitAnswer.nonceTooLow)).acts).length = 3
      ∧ (Ethereum.voteProposal
          { ethWriter (bigBytes keyOne) with hasMetrics := false } (sampleMessage 7) []
          sampleData (ethFailsThenOk 2 Ethereum.SubmitAnswer.nonceTooLow)).acts.count
            WAction.incVotesSubmitted = 0
      ∧ (Ethereum.voteProposal
          { ethWriter (bigBytes keyOne) with hasMetrics := false } (sampleMessage 7) []
          sampleData (ethFailsThenOk 2 Ethereum.SubmitAnswer.nonceTooLow)).ret = some () := by
  decide

/-- C22, the claim as stated fails: for a tron writer whose private scalar is 1, a fungible
message with both payload entries makes `ResolveMessage` fault in `getDataHash`; no value is
returned and nothing is built. -/
theorem tron_ResolveMessage_short_key_faults :
    Tron.ResolveMessage (tronWriter 1) sampleHash (sampleMessage 7) tronOk
        = { ret := none, acts := [] }
      ∧ (sampleMessage 7).Type_ = TransferType.FungibleTransfer
      ∧ (sampleMessage 7).Payload.length = 2 := by
  decide

/-- C22 as amended: the tron `ResolveMessage` is the proposal constructor of the message's
kind; for any other kind it returns false and does nothing, and false is returned only then;
when the payload holds the entries of the kind and the key's `D.Bytes()` has 32 bytes
(`D ≥ 2^248`), it returns true for each of the three kinds, whatever `voteProposal` did. -/
theorem tron_ResolveMessage_dispatch (w : Tron.Writer) (Hash : Bytes → Bytes) (m : Message)
    (env : Nat → Tron.VoteEnv) (D : Nat) (hkey : w.key = some D) (hD : 2 ^ 248 ≤ D)
    (hpay : payloadEntries m.Type_ ≤ m.Payload.length) :
    (m.Type_ = TransferType.FungibleTransfer →
        Tron.ResolveMessage w Hash m env = Tron.createErc20Proposal w Hash m env)
      ∧ (m.Type_ = TransferType.NonFungibleTransfer →
        Tron.ResolveMessage w Hash m env = Tron.createErc721Proposal w Hash m env)
      ∧ (m.Type_ = TransferType.GenericTransfer →
        Tron.ResolveMessage w Hash m env = Tron.createGenericDepositProposal w Hash m env)
      ∧ (m.Type_ = TransferType.other →
        Tron.ResolveMessage w Hash m env = { ret := some false, acts := [] })
      ∧ ((Tron.ResolveMessage w Hash m env).ret = some false ↔ m.Type_ = TransferType.other)
      ∧ (m.Type_ ≠ TransferType.other →
          (Tron.ResolveMessage w Hash m env).ret = some true) := by
  have hlen : 32 ≤ (bigBytes D).length := (bigBytes_length_ge_32 D).mpr hD
  have hsome : ∀ (data : Bytes) (dataHash : Bytes),
      (Tron.voteThenTrue (Tron.voteProposal w m dataHash data env)).ret = some true := by
    intro data dataHash
    have hh : Tron.getDataHash w (m.DepositNonce % 2 ^ 64) data
        = some ((List.range 32).map
            (fun i => (bigBytes D).getD i 0
              ^^^ (keyBytes (m.DepositNonce % 2 ^ 64)).getD (i % 8) 0)) := by
      simp only [Tron.getDataHash, hkey]
      exact xorLoop_eq (bigBytes D) _ hlen
    unfold Tron.voteThenTrue Tron.voteProposal
    rw [tron_voteLoop_returns w m data env _ hh]
    rfl
  have htrue : m.Type_ ≠ TransferType.other →
      (Tron.ResolveMessage w Hash m env).ret = some true := by
    intro hty
    obtain ⟨src, dst, ty, nonce, rid, payload⟩ := m
    cases ty
    · rcases payload with _ | ⟨p0, _ | ⟨p1, tl⟩⟩
      · simp [payloadEntries] at hpay
      · simp [payloadEntries] at hpay
      · simp only [Tron.ResolveMessage, Tron.createErc20Proposal]
        exact hsome _ _
    · rcases payload with _ | ⟨p0, _ | ⟨p1, _ | ⟨p2, tl⟩⟩⟩
      · simp [payloadEntries] at hpay
      · simp [payloadEntries] at hpay
      · simp [payloadEntries] at hpay
      · simp only [Tron.ResolveMessage, Tron.createErc721Proposal]
        exact hsome _ _
    · rcases payload with _ | ⟨p0, tl⟩
      · simp [payloadEntries] at hpay
      · simp only [Tron.ResolveMessage, Tron.createGenericDepositProposal]
        exact hsome _ _
    · exact absurd rfl hty
  refine ⟨?_, ?_, ?_, ?_, ?_, htrue⟩
  · intro h; simp [Tron.ResolveMessage, h]
  · intro h; simp [Tron.ResolveMessage, h]
  · intro h; simp [Tron.ResolveMessage, h]
  · intro h; simp [Tron.ResolveMessage, h]
  · constructor
    · intro h
      by_contra hty
      rw [htrue hty] at h
      cases h
    · intro h
      simp [Tron.ResolveMessage, h]

/-- The concrete run of C22 as amended: the 32-byte key `keyOne`, the sample fungible message,
and `ExecuteTransaction` failing every time, so that `ErrFatalTx` is posted. -/
theorem tron_ResolveMessage_dispatch_witness :
    (Tron.ResolveMessage (tronWriter keyOne) sampleHash (sampleMessage 7)
        tronExecuteFails).acts.getLast? = some WAction.sysErr
      ∧ ((sampleMessage 7).Type_ = TransferType.FungibleTransfer →
        Tron.ResolveMessage (tronWriter keyOne) sampleHash (sampleMessage 7) tronExecuteFails
          = Tron.createErc20Proposal (tronWriter keyOne) sampleHash (sampleMessage 7)
              tronExecuteFails)
      ∧ ((sampleMessage 7).Type_ = TransferType.NonFungibleTransfer →
        Tron.ResolveMessage (tronWriter keyOne) sampleHash (sampleMessage 7) tronExecuteFails
          = Tron.createErc721Proposal (tronWriter keyOne) sampleHash (sampleMessage 7)
              tronExecuteFails)
      ∧ ((sampleMessage 7).Type_ = TransferType.GenericTransfer →
        Tron.ResolveMessage (tronWriter keyOne) sampleHash (sampleMessage 7) tronExecuteFails
          = Tron.createGenericDepositProposal (tronWriter keyOne) sampleHash (sampleMessage 7)
              tronExecuteFails)
      ∧ ((sampleMessage 7).Type_ = TransferType.other →
        Tron.ResolveMessage (tronWriter keyOne) sampleHash (sampleMessage 7) tronExecuteFails
          = { ret := some false, acts := [] })
      ∧ ((Tron.ResolveMessage (tronWriter keyOne) sampleHash (sampleMessage 7)
            tronExecuteFails).ret = some false
          ↔ (sampleMessage 7).Type_ = TransferType.other)
      ∧ ((sampleMessage 7).Type_ ≠ TransferType.other →
          (Tron.ResolveMessage (tronWriter keyOne) sampleHash (sampleMessage 7)
            tronExecuteFails).ret = some true) :=
  ⟨by decide,
    tron_ResolveMessage_dispatch (tronWriter keyOne) sampleHash (sampleMessage 7)
      tronExecuteFails keyOne rfl (by decide) (by decide)⟩

/-- C24 as amended: `Stop` completes exactly when the chain's `stop` channel is made and not
closed and so is the `stop` channel of its connection, when it has one; this is the state of
the chain that `InitializeChain` returns, started or not. When `Stop` completes, both channels
are closed afterwards, nothing else changes, and a further `Stop` on the chain does not
complete; on the zero value of `Chain`, whose `stop` is nil, `Stop` does not complete. -/
theorem Chain_Stop_completes_iff (c : Chain) :
    (c.Stop ≠ none
        ↔ c.stop = Chan.unclosed ∧ ∀ k, c.conn = some k → k.stop = Chan.unclosed)
      ∧ (∀ c2, c.Stop = some c2 →
          c2.stop = Chan.closed ∧ c2.started = c.started
            ∧ (c2.conn = none ↔ c.conn = none)
            ∧ (∀ k2, c2.conn = some k2 →
                k2.stop = Chan.closed ∧ ∃ k, c.conn = some k ∧ k2.hasClient = k.hasClient)
            ∧ c2.Stop = none)
      ∧ (∀ started : Bool,
          Chain.Stop { initialChain with started := started }
            = some { conn := some { hasClient := true, stop := Chan.closed },
                     stop := Chan.closed, started := started })
      ∧ Chain.Stop { conn := none, stop := Chan.nil, started := false } = none := by
  obtain ⟨conn, stop, started⟩ := c
  refine ⟨?_, ?_, fun started => by cases started <;> rfl, rfl⟩
  · cases stop <;> rcases conn with _ | ⟨hc, ks⟩ <;> try cases ks
    all_goals simp [Chain.Stop, closeChan, Connection.Close]
  · intro c2 h
    cases stop <;> rcases conn with _ | ⟨hc, ks⟩ <;> try cases ks
    all_goals simp [Chain.Stop, closeChan, Connection.Close] at h
    all_goals subst h
    all_goals simp [Chain.Stop, closeChan, Connection.Close]

end ChainBridge
